import Mathlib

/-!
Verification of the Kiyoko state-reconciliation and strike-enforcement
engine against its natural-language specification.

The embedding below translates the relevant Python sources
(src/modules/strike.py, src/modules/guild.py, src/modules/reddit.py)
into executable Lean definitions: SQL tables become lists of row
structures, in-memory dicts become association lists, and fallible
operations return Except values whose error constructors mirror the
exception kinds the source raises.
-/

namespace Kiyoko

/-- Error kinds surfaced by the command handlers (src/error.py exception
classes) together with the Python builtin exceptions that can escape the
modelled code paths. -/
inductive AppErr where
  | invalidParameter    -- kiyo_error.AppCmd_InvalidParameter
  | missingPermissions  -- kiyo_error.AppCmd_MissingPermissions
  | allSlotsOccupied    -- kiyo_error.AllSlotsOccupied
  | pyIndexError        -- Python builtin IndexError
  | pyValueError        -- Python builtin ValueError
deriving DecidableEq, Repr

/-! ## Strike system (src/modules/strike.py)

The strike tables:
  strike_entr(guildid, uid, issuer, id, reason, pt, ts, msgref)
  strike_cfg(guildid, key, p1, p2)
are modelled as lists of row structures.  The strike_cfg columns p1/p2
are TEXT in the store and CAST to INT where the queries do so; p1 is
held as Int directly (the value the CAST produces) and p2 as the raw
action string. -/

/-- One row of the strike_entr table. -/
structure StrikeRow where
  guildid : Nat
  uid     : Nat
  issuer  : Nat
  sid     : String
  reason  : String
  pt      : Int
  ts      : Int
  msgref  : Option String
deriving DecidableEq, Repr

/-- One row of the strike_cfg table (key is either decay or threshold). -/
structure CfgRow where
  guildid : Nat
  key     : String
  p1      : Int
  p2      : String
deriving DecidableEq, Repr

/-- The CTE of the threshold query in cmd_add:
SELECT SUM(pt) FROM strike_entr WHERE guildid = g AND uid = u GROUP BY uid.
With no matching rows the grouped query yields no row at all, hence the
Option.  Note there is no timestamp filter of any kind. -/
def totalSum (db : List StrikeRow) (g u : Nat) : Option Int :=
  let rows := db.filter (fun r => decide (r.guildid = g ∧ r.uid = u))
  if rows.isEmpty then none else some ((rows.map (fun r => r.pt)).sum)

/-- Accumulator step realising ORDER BY CAST(p1 AS INT) DESC LIMIT 1 over a
scan of the qualifying rows: keep the row with the largest p1 seen so far. -/
def pickMax (acc : Option CfgRow) (r : CfgRow) : Option CfgRow :=
  match acc with
  | none => some r
  | some b => if b.p1 < r.p1 then some r else some b

/-- The threshold-selection part of the cmd_add query: among rows of
strike_cfg with the given guildid, key threshold and p1 <= total, the one
with the largest p1. -/
def selectThreshold (cfg : List CfgRow) (g : Nat) (total : Int) : Option CfgRow :=
  (cfg.filter (fun r =>
    decide (r.guildid = g ∧ r.key = ("threshold") ∧ r.p1 ≤ total))).foldl pickMax none

/-- The full threshold query run by cmd_add (strike.py lines 179-195):
joins the (decay-free) running sum with the threshold table and returns
(p2, total_sum) of the selected row, or none when the subject has no
stored entries or no floor qualifies. -/
def evaluateThreshold (cfg : List CfgRow) (db : List StrikeRow) (g u : Nat) :
    Option (String × Int) :=
  (totalSum db g u).bind (fun s =>
    (selectThreshold cfg g s).map (fun r => (r.p2, s)))

/-- The decay subquery of the daily prune task __on_delexpired:
SELECT p1 FROM strike_cfg WHERE guildid = g AND key = decay LIMIT 1. -/
def decayOf (cfg : List CfgRow) (g : Nat) : Option Int :=
  ((cfg.filter (fun r => decide (r.guildid = g ∧ r.key = ("decay")))).head?).map
    (fun r => r.p1)

/-- One guild iteration of the daily prune task __on_delexpired
(strike.py lines 502-525): DELETE FROM strike_entr WHERE guildid = g AND
ts + decay <= tnow.  When no decay row exists the CAST of the empty
subquery is NULL and the comparison deletes nothing. -/
def delexpiredGuild (cfg : List CfgRow) (g : Nat) (tnow : Int)
    (db : List StrikeRow) : List StrikeRow :=
  match decayOf cfg g with
  | none => db
  | some d => db.filter (fun r => !(decide (r.guildid = g ∧ r.ts + d ≤ tnow)))

/-- Modelled from the spec (section 4.2, evaluateThreshold): the running
sum with decay applied at read time, excluding entries whose timestamp is
older than the decay duration relative to the evaluation time t.  This is
the sum the claim says the code computes; it exists only to be compared
against the code's totalSum. -/
def specDecayedSum (cfg : List CfgRow) (db : List StrikeRow) (g u : Nat)
    (t : Int) : Option Int :=
  match decayOf cfg g with
  | none => none
  | some d =>
    let rows := db.filter (fun r =>
      decide (r.guildid = g ∧ r.uid = u ∧ ¬(r.ts + d ≤ t)))
    if rows.isEmpty then none else some ((rows.map (fun r => r.pt)).sum)

/-- Modelled from the spec (section 4.2): threshold evaluation over the
read-time-decayed sum, with the same highest-qualifying-floor selection. -/
def specEvaluateThreshold (cfg : List CfgRow) (db : List StrikeRow) (g u : Nat)
    (t : Int) : Option (String × Int) :=
  (specDecayedSum cfg db g u t).bind (fun s =>
    (selectThreshold cfg g s).map (fun r => (r.p2, s)))

/-- The single-quote character, used by the SQL string-literal model. -/
def squote : Char := Char.ofNat 39

/-- Whether every single quote in the interpolated text appears as part of
an adjacent pair.  The INSERT statement of cmd_add splices the reason
verbatim between single quotes; the spliced statement lexes as one string
literal exactly when the quotes inside the reason pair up, otherwise the
statement is malformed and the execute raises on every attempt. -/
def quotesPaired : List Char → Bool
  | [] => true
  | c :: rest =>
    if c = squote then
      match rest with
      | c2 :: rest2 => if c2 = squote then quotesPaired rest2 else false
      | [] => false
    else quotesPaired rest

/-- Whether one execute of the cmd_add INSERT succeeds: the statement must
be well-formed (quotes in the interpolated reason pair up) and the freshly
generated strike id must not collide with an id already stored for the
same collision domain (the UNIQUE constraint). -/
def insertOk (used : List String) (reason : String) (sid : String) : Bool :=
  quotesPaired reason.toList && !(used.contains sid)

/-- The id-generation retry loop of cmd_add (strike.py lines 154-175):
while 1: sid = genstrid(); try: INSERT ...; except: continue; break.
The bare except catches every exception and retries with the next
generated id; genids k is the id produced by the k-th call of __genstrid.
The fuel argument bounds how many iterations we observe: the loop
terminates within some fuel iff some attempt's insert succeeds. -/
def addStrikeLoop (genids : Nat → String) (ins : String → Bool) :
    Nat → Nat → Option String
  | _, 0 => none
  | k, fuel + 1 =>
    let sid := genids k
    if ins sid then some sid else addStrikeLoop genids ins (k + 1) fuel

/-- The validation gate at the top of cmd_add (strike.py line 146):
if pt < 1 or reason is None or len(reason) == 0: raise. -/
def cmd_addRejects (pt : Int) (reason : String) : Bool :=
  decide (pt < 1) || decide (reason = (""))

/-- Python str.split with the single-space separator, as used on the
action string: consecutive separators yield empty fields. -/
def splitSpaceAux : List Char → List Char → List (List Char)
  | [], acc => [acc.reverse]
  | c :: rest, acc =>
    if c = (' ' : Char) then acc.reverse :: splitSpaceAux rest []
    else splitSpaceAux rest (c :: acc)

/-- str(res[0]).split(chr 32) of cmd_add as a list of strings. -/
def pySplitSpace (s : String) : List String :=
  (splitSpaceAux s.toList []).map String.mk

/-- Python int() applied to a decimal-digit string, as used on the
timeout duration field: none models the ValueError of a malformed
argument. -/
def pyInt? (s : String) : Option Int :=
  let cs := s.toList
  if cs ≠ [] ∧ cs.all Char.isDigit then
    some (cs.foldl (fun a c => a * 10 + ((c.toNat : Int) - 48)) 0)
  else none

/-- The action-carrying part of cmd_add (strike.py lines 143-254) after a
successful insert of the new entry with id sid: commit the row, run the
threshold query over the stored entries including the new one, then parse
and actuate the selected action string.  The booleans model the external
actuation collaborator: callerKick/callerBan are the issuer's resolved
permissions and actForbidden is true when the platform denies the
timeout/kick/ban call (discord.Forbidden).  The returned table is the
committed state: the entry is committed before any actuation and no
branch deletes it. -/
def cmd_add (cfg : List CfgRow) (db : List StrikeRow) (g u issuer : Nat)
    (pt : Int) (reason : String) (ts : Int) (sid : String)
    (msgref : Option String) (callerKick callerBan actForbidden : Bool) :
    List StrikeRow × Except AppErr (Option String) :=
  if cmd_addRejects pt reason then (db, .error .invalidParameter)
  else
    let row : StrikeRow := ⟨g, u, issuer, sid, reason, pt, ts, msgref⟩
    let db1 := db ++ [row]
    match evaluateThreshold cfg db1 g u with
    | none => (db1, .ok none)
    | some (p2, _total) =>
      let command := pySplitSpace p2
      let cmd0 := command.headD ("")
      if cmd0 = ("timeout") then
        match pyInt? (command.getD 1 ("")) with
        | none => (db1, .error .pyValueError)
        | some _ =>
          if actForbidden then (db1, .error .missingPermissions)
          else (db1, .ok (some p2))
      else if cmd0 = ("kick") then
        if !callerKick then (db1, .error .missingPermissions)
        else if actForbidden then (db1, .error .missingPermissions)
        else (db1, .ok (some p2))
      else if cmd0 = ("ban") then
        if !callerBan then (db1, .error .missingPermissions)
        else if actForbidden then (db1, .error .missingPermissions)
        else (db1, .ok (some p2))
      else (db1, .ok (some p2))

/-! ### Duration parsing (__iso8601tosec, strike.py lines 419-435)

The source runs re.findall(r'(\d+[ymwdh])+', input) and then iterates
    for val, unit in dur: sdur += lut[unit] * int(val)
The regex repeats a capture group, so findall yields, for every maximal
run of consecutive digit+unit terms, only the text the group captured
last, i.e. the final term of the run.  The Python for-loop then unpacks
each captured string into exactly two characters; a capture of any other
length raises ValueError. -/

/-- Whether a character is one of the duration unit letters y m w d h. -/
def isUnitChar (c : Char) : Bool :=
  c = ('y' : Char) || c = ('m' : Char) || c = ('w' : Char) ||
  c = ('d' : Char) || c = ('h' : Char)

/-- Matches one term of the regex, digits+ followed by a unit letter,
returning the matched text and the remaining input. -/
def parseTerm (cs : List Char) : Option (List Char × List Char) :=
  let ds := cs.takeWhile Char.isDigit
  let rest := cs.dropWhile Char.isDigit
  match ds, rest with
  | [], _ => none
  | _ :: _, u :: rest2 => if isUnitChar u then some (ds ++ [u], rest2) else none
  | _ :: _, [] => none

/-- Matches a maximal run of consecutive terms starting at the current
position, returning the capture-group value (the last term of the run)
and the remaining input.  Fuelled structural recursion; each recursive
level consumes at least two characters, so fuel = input length always
suffices. -/
def parseRunAux : Nat → List Char → Option (List Char × List Char)
  | 0, _ => none
  | fuel + 1, cs =>
    match parseTerm cs with
    | none => none
    | some (t, rest) =>
      match parseRunAux fuel rest with
      | some p => some p
      | none => some (t, rest)

/-- Scans the whole input the way re.findall does: at each position try
the pattern; on a match record the capture and continue after the match,
otherwise advance one character. -/
def findallAux : Nat → List Char → List (List Char)
  | 0, _ => []
  | _, [] => []
  | fuel + 1, c :: cs =>
    match parseRunAux (c :: cs).length (c :: cs) with
    | some (t, rest) => t :: findallAux fuel rest
    | none => findallAux fuel cs

/-- re.findall(r'(\d+[ymwdh])+', input) as the source calls it. -/
def findallCaptures (cs : List Char) : List (List Char) :=
  findallAux cs.length cs

/-- The fixed conversion table lut of __iso8601tosec. -/
def lut (c : Char) : Nat :=
  if c = ('h' : Char) then 60 * 60 * 1
  else if c = ('d' : Char) then 24 * 60 * 60 * 1
  else if c = ('w' : Char) then 7 * 24 * 60 * 60 * 1
  else if c = ('m' : Char) then 4 * 7 * 24 * 60 * 60 * 1
  else if c = ('y' : Char) then 12 * 4 * 7 * 24 * 60 * 60 * 1
  else 0

/-- __iso8601tosec (strike.py lines 419-435): sum lut[unit] * int(val)
over the findall captures, where each capture is tuple-unpacked into two
single characters; a capture whose length is not exactly two raises
ValueError. -/
def iso8601tosec (input : String) : Except AppErr Nat :=
  (findallCaptures input.toList).foldlM
    (fun acc t =>
      match t with
      | [v, u] => .ok (acc + lut u * (v.toNat - ('0' : Char).toNat))
      | _ => .error .pyValueError)
    0

/-- Modelled from the spec (section 4.2 numeric semantics): the intended
sum over every digit+unit term of the input, used only for comparison
with the code's iso8601tosec. -/
def specDurationAux : Nat → List Char → Nat
  | 0, _ => 0
  | _, [] => 0
  | fuel + 1, c :: cs =>
    match parseTerm (c :: cs) with
    | some (t, rest) =>
      (match t with
       | [v, u] => lut u * (v.toNat - ('0' : Char).toNat)
       | _ => 0) + specDurationAux fuel rest
    | none => specDurationAux fuel cs

/-- Modelled from the spec: total seconds of every term of the string. -/
def specDurationSum (input : String) : Nat :=
  specDurationAux input.toList.length input.toList

/-! ## Guild reconciliation (src/modules/guild.py)

The guilds table guilds(id, joined, left) and the one-to-one
guildsettings(guildid, config) table become lists of rows; syncdb's
command list and its application loop are translated action for
action. -/

/-- One row of the guilds table; left is NULL while the bot is a
member. -/
structure GuildRow where
  id     : Nat
  joined : Option Int
  left   : Option Int
deriving DecidableEq, Repr

/-- The guilds and guildsettings tables together. -/
structure GuildTables where
  guilds   : List GuildRow
  settings : List (Nat × String)
deriving DecidableEq, Repr

/-- A column of the guilds table that updgentry can set. -/
inductive GField where
  | joined
  | left
deriving DecidableEq, Repr

/-- A value passed to updgentry: the SQL_NO_UPD sentinel (skip the
field), NULL, or a concrete value. -/
inductive UpdVal where
  | noupd
  | null
  | val (v : Int)
deriving DecidableEq, Repr

/-- Effect of one UPDATE guilds SET field = v statement on one row. -/
def updRowField (r : GuildRow) : GField × UpdVal → GuildRow
  | (_, .noupd) => r
  | (.joined, .null) => { r with joined := none }
  | (.joined, .val v) => { r with joined := some v }
  | (.left, .null) => { r with left := none }
  | (.left, .val v) => { r with left := some v }

/-- updgentry (guild.py lines 92-117): for each (field, value) pair not
equal to the SQL_NO_UPD sentinel, UPDATE guilds SET field = value WHERE
id = gid. -/
def updgentry (guilds : List GuildRow) (gid : Nat)
    (values : List (GField × UpdVal)) : List GuildRow :=
  values.foldl
    (fun gs fv => gs.map (fun r => if r.id = gid then updRowField r fv else r))
    guilds

/-- SELECT id, left FROM guilds WHERE id = gid, fetchone. -/
def findGuild (guilds : List GuildRow) (gid : Nat) : Option GuildRow :=
  guilds.find? (fun r => decide (r.id = gid))

/-- addgentry (guild.py lines 152-207): if a row for the guild exists,
stamp joined = now and clear left (rejoin); otherwise insert the guild
row and its default guildsettings row. -/
def addgentry (t : GuildTables) (gid : Nat) (tnow : Int) : GuildTables :=
  match findGuild t.guilds gid with
  | some _ =>
    { t with guilds :=
        updgentry t.guilds gid [(.joined, .val tnow), (.left, .null)] }
  | none =>
    { guilds := t.guilds ++ [⟨gid, some tnow, none⟩],
      settings := t.settings ++ [(gid, ("\x7b\x7d"))] }

/-- The command list of syncdb (guild.py lines 415-417): action 1 for
observed guilds missing from the table, action 2 for stored guilds with
left still NULL that are no longer observed, action 3 for observed
stored guilds whose left is non-NULL. -/
def syncdbClist (guilds : List GuildRow) (glist : List Nat) :
    List (Nat × Nat) :=
  ((glist.filter (fun e =>
      !(guilds.any (fun r => decide (r.id = e))))).map (fun e => (e, 1)))
  ++ (((guilds.map (fun r => r.id)).filter (fun e =>
      !(glist.contains e)
      && guilds.any (fun r => decide (r.id = e ∧ r.left = none)))).map
        (fun e => (e, 2)))
  ++ ((glist.filter (fun e =>
      (guilds.any (fun r => decide (r.id = e)))
      && !(guilds.any (fun r => decide (r.id = e ∧ r.left = none))))).map
        (fun e => (e, 3)))

/-- One iteration of syncdb's application loop (guild.py lines 420-440):
action 1 inserts or reactivates via addgentry; action 2 stamps left = now
keeping joined (SQL_NO_UPD); action 3 stamps joined = now and clears
left. -/
def syncdbStep (tnow : Int) (t : GuildTables) (a : Nat × Nat) : GuildTables :=
  if a.2 = 1 then addgentry t a.1 tnow
  else if a.2 = 2 ∨ a.2 = 3 then
    let jv : UpdVal := if a.2 = 3 then .val tnow else .noupd
    let lv : UpdVal := if a.2 = 2 then .val tnow else .null
    { t with guilds := updgentry t.guilds a.1 [(.joined, jv), (.left, lv)] }
  else t

/-- The full application loop of syncdb. -/
def syncdbApply (t : GuildTables) (clist : List (Nat × Nat)) (tnow : Int) :
    GuildTables :=
  clist.foldl (syncdbStep tnow) t

/-- syncdb (guild.py lines 393-451): compute the command list against the
observed guild-id set, then apply every action.  Returns the command
list together with the resulting store. -/
def syncdb (t : GuildTables) (glist : List Nat) (tnow : Int) :
    List (Nat × Nat) × GuildTables :=
  let c := syncdbClist t.guilds glist
  (c, syncdbApply t c tnow)

/-- The application loop of syncdb with a failure oracle: failAt k models
the k-th action's store statement raising an exception.  The source has
no try/except around the loop, so the first failure propagates out of
syncdb immediately (the flag records that the batch aborted); the store
keeps only the effects of the actions applied before the failure. -/
def syncdbApplyF (failAt : Nat → Bool) (tnow : Int) :
    Nat → GuildTables → List (Nat × Nat) → GuildTables × Bool
  | _, t, [] => (t, false)
  | k, t, a :: rest =>
    if failAt k then (t, true)
    else syncdbApplyF failAt tnow (k + 1) (syncdbStep tnow t a) rest

/-- syncdb under the failure oracle. -/
def syncdbF (failAt : Nat → Bool) (t : GuildTables) (glist : List Nat)
    (tnow : Int) : List (Nat × Nat) × (GuildTables × Bool) :=
  let c := syncdbClist t.guilds glist
  (c, syncdbApplyF failAt tnow 0 t c)

/-- Verification helper: the effect one syncdb action has on the row of
its own guild id, expressed on the result of findGuild. -/
def actionOnRow (tnow : Int) (a : Nat) (g : Nat) (cur : Option GuildRow) :
    Option GuildRow :=
  if a = 1 then some ⟨g, some tnow, none⟩
  else if a = 2 then cur.map (fun r => { r with left := some tnow })
  else if a = 3 then
    cur.map (fun r => { r with joined := some tnow, left := none })
  else cur

/-! ## Reddit feed subscriptions (src/modules/reddit.py)

KiyokoSubredditManager's state: the global blacklist, the feed set (the
active aggregate subscription), the subscriber dict mapping a subreddit
name to its list of (guild id, channel id, ping role) tuples, and the
watermark state of the polling task (_lid, _lts, _lfupd) plus whether the
aggregate listener _subl has been built. -/

/-- One entry of a guild config's reddit listener list:
a dict holding keys id, broadcast and prole. -/
structure RedditEntry where
  id        : String
  broadcast : Nat
  prole     : Nat
deriving DecidableEq, Repr

/-- One reddit submission as consumed by the polling task (newest
first): its id, creation time and the bare subreddit name. -/
structure Subm where
  sid     : String
  created : Nat
  sub     : String
deriving DecidableEq, Repr

/-- The manager state. -/
structure RState where
  blist : List String
  feed  : List String
  data  : List (String × List (Nat × Nat × Nat))
  lid   : String
  lts   : Nat
  lfupd : Nat
  subl  : Bool
deriving DecidableEq, Repr

/-- Python dict lookup on the subscriber dict. -/
def dictGet (d : List (String × List (Nat × Nat × Nat))) (k : String) :
    Option (List (Nat × Nat × Nat)) :=
  (d.find? (fun p => decide (p.1 = k))).map (fun p => p.2)

/-- Python dict key assignment on the subscriber dict. -/
def dictSet (d : List (String × List (Nat × Nat × Nat))) (k : String)
    (v : List (Nat × Nat × Nat)) : List (String × List (Nat × Nat × Nat)) :=
  if (d.find? (fun p => decide (p.1 = k))).isSome then
    d.map (fun p => if p.1 = k then (k, v) else p)
  else d ++ [(k, v)]

/-- Python set add on the feed set. -/
def feedAdd (feed : List String) (s : String) : List String :=
  if s ∈ feed then feed else s :: feed

/-- __nsubs (reddit.py lines 296-297): number of subscribed guild
entries of a subreddit, 0 when it is not tracked. -/
def nsubs (st : RState) (subn : String) : Nat :=
  ((dictGet st.data subn).getD []).length

/-- __isguildsubbed (reddit.py lines 216-221). -/
def isguildsubbed (st : RState) (gid : Nat) (name : String) : Bool :=
  ((dictGet st.data name).getD []).any (fun t => decide (t.1 = gid))

/-- addsubreddit (reddit.py lines 146-148): append the
(guild, channel, role) tuple to the subreddit's listener list, creating
the key when absent (the get-or-new-list idiom). -/
def addsubreddit (st : RState) (subn : String) (gid cid prole : Nat) :
    RState :=
  let newlist := ((dictGet st.data subn).getD []) ++ [(gid, cid, prole)]
  { st with data := dictSet st.data subn newlist }

/-- remsubreddit (reddit.py lines 156-163).  The source removes the
first tuple of the guild from the listener list; when no tuple matches,
the indexing expression on the empty comprehension raises IndexError,
which the except clause (it only catches ValueError) does not intercept,
so the documented False return is unreachable. -/
def remsubreddit (st : RState) (subn : String) (gid : Nat) :
    Except AppErr (Bool × RState) :=
  match ((dictGet st.data subn).getD []).filter (fun t => decide (t.1 = gid)) with
  | [] => .error .pyIndexError
  | x :: _ =>
    let d2 := dictSet st.data subn (((dictGet st.data subn).getD []).erase x)
    .ok (true, { st with data := d2 })

/-- The subreddit status enum (reddit.py lines 46-50). -/
inductive KiyokoSubredditStatus where
  | available
  | nonexistent
  | blacklisted
  | alrinfeed
deriving DecidableEq, Repr

/-- querysubstatus (reddit.py lines 172-183). -/
def querysubstatus (st : RState) (gid : Nat) (sub : String) :
    KiyokoSubredditStatus :=
  if isguildsubbed st gid sub then .alrinfeed
  else if sub ∈ st.blist then .blacklisted
  else .available

/-- __buildfeed (reddit.py lines 227-234): reconnects the aggregate
listener and stamps the rebuild time; on an upstream failure (ok false)
both assignments are skipped and the previous listener state is kept. -/
def buildfeed (st : RState) (ok : Bool) (now : Nat) : RState :=
  if ok then { st with subl := true, lfupd := now } else st

/-- updfeed (reddit.py lines 190-209): add the subreddit to the feed set
unless blacklisted, or drop it when no guild subscribes to it any
longer (the KeyError of removing an absent element is swallowed), then
rebuild the aggregate. -/
def updfeed (st : RState) (sname : String) (isadd : Bool) (ok : Bool)
    (now : Nat) : RState :=
  let st1 :=
    if isadd && !(st.blist.contains sname) then
      { st with feed := feedAdd st.feed sname }
    else if !isadd && decide (nsubs st sname = 0) then
      { st with feed := st.feed.erase sname }
    else st
  buildfeed st1 ok now

/-- initdata (reddit.py lines 123-139): populate the feed set and the
subscriber dict from every guild config that has a reddit listener list.
Note there is no blacklist check on this path. -/
def initdata : RState → List (Nat × Option (List RedditEntry)) → RState
  | st, [] => st
  | st, gcfg :: rest =>
    match gcfg.2 with
    | none => initdata st rest
    | some entries =>
      initdata
        (entries.foldl
          (fun st e =>
            addsubreddit { st with feed := feedAdd st.feed e.id }
              e.id gcfg.1 e.broadcast e.prole)
          st)
        rest

/-- The manager state together with the per-guild config cache that the
subscription commands read and write. -/
structure MState where
  man   : RState
  gcfgs : List (Nat × Option (List RedditEntry))
deriving DecidableEq, Repr

/-- getgconfig(...).reddit: the guild's listener list, none when never
configured. -/
def gcfgGet (gcfgs : List (Nat × Option (List RedditEntry))) (gid : Nat) :
    Option (List RedditEntry) :=
  match gcfgs.find? (fun p => decide (p.1 = gid)) with
  | some p => p.2
  | none => none

/-- Assignment to the guild config's reddit listener list. -/
def gcfgSet (gcfgs : List (Nat × Option (List RedditEntry))) (gid : Nat)
    (v : List RedditEntry) : List (Nat × Option (List RedditEntry)) :=
  if (gcfgs.find? (fun p => decide (p.1 = gid))).isSome then
    gcfgs.map (fun p => if p.1 = gid then (gid, some v) else p)
  else gcfgs ++ [(gid, some v)]

/-- cmd_add of the reddit command group (reddit.py lines 391-432):
subscribe the guild to a subreddit.  Requires AVAILABLE status, enforces
the cap of 8 listeners per guild, then appends to the guild config,
updates the subscriber dict and rebuilds the feed. -/
def reddit_cmd_add (ms : MState) (gid : Nat) (subn : String)
    (cid roleid : Nat) (ok : Bool) (now : Nat) : Except AppErr MState :=
  match querysubstatus ms.man gid subn with
  | .available =>
    let lst := (gcfgGet ms.gcfgs gid).getD []
    if 8 ≤ lst.length then .error .allSlotsOccupied
    else
      let gcfgs1 := gcfgSet ms.gcfgs gid (lst ++ [⟨subn, cid, roleid⟩])
      let man1 := addsubreddit ms.man subn gid cid roleid
      .ok { man := updfeed man1 subn true ok now, gcfgs := gcfgs1 }
  | _ => .error .invalidParameter

/-- cmd_rem of the reddit command group (reddit.py lines 454-477):
unsubscribe the guild from a subreddit.  remsubreddit's IndexError on an
absent target propagates; on success the guild config entry is filtered
out and the feed updated. -/
def reddit_cmd_rem (ms : MState) (gid : Nat) (subn : String) (ok : Bool)
    (now : Nat) : Except AppErr MState :=
  match remsubreddit ms.man subn gid with
  | .error e => .error e
  | .ok (true, man1) =>
    let gcfgs1 := gcfgSet ms.gcfgs gid
      (((gcfgGet ms.gcfgs gid).getD []).filter (fun x => decide (x.id ≠ subn)))
    .ok { man := updfeed man1 subn false ok now, gcfgs := gcfgs1 }
  | .ok (false, _) => .error .invalidParameter

/-- The submission scan of __on_scrape_newsubms (reddit.py lines
317-350): walk the newest-first listing and collect submissions until
one hits the break condition (already-seen id, cold start, dated before
the last rebuild, or not newer than the watermark). -/
def scanLoop (lid : String) (lfupd lts : Nat) : List Subm → List Subm
  | [] => []
  | i :: rest =>
    if i.sid = lid ∨ lid = ("") ∨ i.created < lfupd ∨ i.created ≤ lts then []
    else i :: scanLoop lid lfupd lts rest

/-- One full poll cycle of __on_scrape_newsubms over the given
newest-first listing: the collected submissions paired with the
subscriber lists they are delivered to, and the new watermark state
(_lid becomes the newest listed id, _lts the maximum of its timestamp
and the previous watermark). -/
def pollNewItems (st : RState) (items : List Subm) :
    (List (Subm × List (Nat × Nat × Nat))) × RState :=
  let fanned := scanLoop st.lid st.lfupd st.lts items
  let dels := fanned.map (fun i => (i, (dictGet st.data i.sub).getD []))
  let newlatest := ((items.head?).map (fun i => i.sid)).getD ("")
  let latestts := ((items.head?).map (fun i => i.created)).getD 0
  (dels, { st with lid := newlatest, lts := max latestts st.lts })

/-- The aggregate-membership invariant of the spec: a subreddit is in
the feed set iff it has at least one subscriber and is not
blacklisted. -/
def feedInv (st : RState) : Prop :=
  ∀ s : String, s ∈ st.feed ↔ (0 < nsubs st s ∧ s ∉ st.blist)

/-! ### Lemmas about threshold selection -/

theorem foldl_pickMax_eq_none :
    ∀ (l : List CfgRow) (acc : Option CfgRow),
      l.foldl pickMax acc = none → acc = none ∧ l = [] := by
  intro l
  induction l with
  | nil => intro acc h; exact ⟨h, rfl⟩
  | cons r t ih =>
    intro acc h
    have h2 := ih (pickMax acc r) h
    exfalso
    cases acc with
    | none => simp [pickMax] at h2
    | some b =>
      have := h2.1
      simp only [pickMax] at this
      by_cases hb : b.p1 < r.p1 <;> simp [hb] at this

theorem pickMax_ne_none (acc : Option CfgRow) (r : CfgRow) :
    pickMax acc r ≠ none := by
  cases acc with
  | none => simp [pickMax]
  | some b =>
    simp only [pickMax]
    by_cases h : b.p1 < r.p1 <;> simp [h]

theorem foldl_pickMax_mem :
    ∀ (l : List CfgRow) (acc : Option CfgRow) (b : CfgRow),
      l.foldl pickMax acc = some b → b ∈ l ∨ acc = some b := by
  intro l
  induction l with
  | nil => intro acc b h; exact Or.inr h
  | cons r t ih =>
    intro acc b h
    rcases ih (pickMax acc r) b h with hmem | hacc
    · exact Or.inl (List.mem_cons_of_mem r hmem)
    · cases acc with
      | none =>
        simp only [pickMax, Option.some.injEq] at hacc
        exact Or.inl (by rw [← hacc]; exact List.mem_cons_self r t)
      | some a =>
        simp only [pickMax] at hacc
        by_cases ha : a.p1 < r.p1
        · rw [if_pos ha] at hacc
          injection hacc with hacc
          exact Or.inl (by rw [← hacc]; exact List.mem_cons_self r t)
        · rw [if_neg ha] at hacc
          exact Or.inr hacc

theorem foldl_pickMax_ub :
    ∀ (l : List CfgRow) (acc : Option CfgRow) (b : CfgRow),
      l.foldl pickMax acc = some b →
      (∀ x ∈ l, x.p1 ≤ b.p1) ∧ (∀ a, acc = some a → a.p1 ≤ b.p1) := by
  intro l
  induction l with
  | nil =>
    intro acc b h
    refine ⟨by simp, ?_⟩
    intro a ha
    rw [ha] at h
    simp only [List.foldl_nil, Option.some.injEq] at h
    rw [h]
  | cons r t ih =>
    intro acc b h
    have h2 := ih (pickMax acc r) b h
    cases hpk : pickMax acc r with
    | none => exact absurd hpk (pickMax_ne_none acc r)
    | some c =>
      have hcb : c.p1 ≤ b.p1 := h2.2 c hpk
      have hstep : r.p1 ≤ c.p1 ∧ (∀ a, acc = some a → a.p1 ≤ c.p1) := by
        cases acc with
        | none =>
          simp only [pickMax, Option.some.injEq] at hpk
          exact ⟨by rw [hpk], by intro a ha; cases ha⟩
        | some a =>
          simp only [pickMax] at hpk
          by_cases ha : a.p1 < r.p1
          · rw [if_pos ha] at hpk
            injection hpk with hpk
            refine ⟨by rw [hpk], ?_⟩
            intro a2 ha2
            injection ha2 with ha2
            rw [← ha2, ← hpk]
            exact le_of_lt ha
          · rw [if_neg ha] at hpk
            injection hpk with hpk
            refine ⟨by rw [← hpk]; exact le_of_not_lt ha, ?_⟩
            intro a2 ha2
            injection ha2 with ha2
            rw [← ha2, ← hpk]
      constructor
      · intro x hx
        rcases List.mem_cons.mp hx with hx | hx
        · rw [hx]
          exact le_trans hstep.1 hcb
        · exact h2.1 x hx
      · intro a ha
        exact le_trans (hstep.2 a ha) hcb

theorem pairwise_p1_inj {l : List CfgRow}
    (h : l.Pairwise (fun a b => a.p1 ≠ b.p1)) :
    ∀ {a b : CfgRow}, a ∈ l → b ∈ l → a.p1 = b.p1 → a = b := by
  induction l with
  | nil => intro a b ha; cases ha
  | cons r t ih =>
    intro a b ha hb hp
    rcases List.pairwise_cons.mp h with ⟨hr, ht⟩
    rcases List.mem_cons.mp ha with ha | ha <;> rcases List.mem_cons.mp hb with hb | hb
    · exact ha.trans hb.symm
    · exact absurd (ha ▸ hp) (hr b hb)
    · exact absurd (hb ▸ hp.symm) (hr a ha)
    · exact ih ht ha hb hp

/-- Claim C3 (confirmed): threshold selection picks the highest qualifying
floor inclusively.  For a community whose threshold rows have pairwise
distinct floors, selectThreshold returns exactly the row whose floor is
the largest one below or equal to the point sum; with the table
0/warn, 5/timeout 3600, 10/ban and a point sum of exactly 5 the selected
action is timeout 3600, and with a sum below the lowest floor the query
returns no row. -/
theorem selectThreshold_highest_qualifying_floor
    (cfg : List CfgRow) (g : Nat) (total : Int) (r : CfgRow)
    (hdist : (cfg.filter (fun x =>
        decide (x.guildid = g ∧ x.key = ("threshold")))).Pairwise
        (fun a b => a.p1 ≠ b.p1))
    (hr : r ∈ cfg) (hrg : r.guildid = g) (hrk : r.key = ("threshold"))
    (hrle : r.p1 ≤ total)
    (hmax : ∀ x ∈ cfg, x.guildid = g → x.key = ("threshold") →
      x.p1 ≤ total → x.p1 ≤ r.p1) :
    selectThreshold cfg g total = some r
    ∧ evaluateThreshold
        [⟨1, ("threshold"), 0, ("warn")⟩,
         ⟨1, ("threshold"), 5, ("timeout 3600")⟩,
         ⟨1, ("threshold"), 10, ("ban")⟩]
        [⟨1, 2, 9, ("ab12"), ("spam"), 5, 50, none⟩] 1 2
      = some (("timeout 3600"), 5)
    ∧ evaluateThreshold
        [⟨1, ("threshold"), 6, ("timeout 3600")⟩,
         ⟨1, ("threshold"), 10, ("ban")⟩]
        [⟨1, 2, 9, ("ab12"), ("spam"), 5, 50, none⟩] 1 2
      = none := by
  refine ⟨?_, by decide, by decide⟩
  unfold selectThreshold
  set l := cfg.filter (fun x =>
    decide (x.guildid = g ∧ x.key = ("threshold") ∧ x.p1 ≤ total)) with hl
  have hrl : r ∈ l := by
    rw [hl]
    exact List.mem_filter.mpr ⟨hr, by simp [hrg, hrk, hrle]⟩
  cases hres : l.foldl pickMax none with
  | none =>
    exfalso
    have := (foldl_pickMax_eq_none l none hres).2
    rw [this] at hrl
    cases hrl
  | some b =>
    have hbmem : b ∈ l := by
      rcases foldl_pickMax_mem l none b hres with h | h
      · exact h
      · cases h
    have hble : ∀ x ∈ l, x.p1 ≤ b.p1 := (foldl_pickMax_ub l none b hres).1
    have hbl : b ∈ cfg ∧ b.guildid = g ∧ b.key = ("threshold") ∧ b.p1 ≤ total := by
      have := List.mem_filter.mp hbmem
      refine ⟨this.1, ?_⟩
      have h2 := this.2
      simpa using h2
    have hp1 : b.p1 = r.p1 :=
      le_antisymm (hmax b hbl.1 hbl.2.1 hbl.2.2.1 hbl.2.2.2) (hble r hrl)
    have hbr : b = r := by
      refine pairwise_p1_inj hdist ?_ ?_ hp1
      · exact List.mem_filter.mpr ⟨hbl.1, by simp [hbl.2.1, hbl.2.2.1]⟩
      · exact List.mem_filter.mpr ⟨hr, by simp [hrg, hrk]⟩
    rw [hbr]

/-- Witness for C3: the general statement applied to the concrete table
0/warn, 5/timeout 3600, 10/ban at point sum 5. -/
theorem selectThreshold_highest_qualifying_floor_witness :
    selectThreshold
      [⟨1, ("threshold"), 0, ("warn")⟩,
       ⟨1, ("threshold"), 5, ("timeout 3600")⟩,
       ⟨1, ("threshold"), 10, ("ban")⟩] 1 5
    = some ⟨1, ("threshold"), 5, ("timeout 3600")⟩ :=
  (selectThreshold_highest_qualifying_floor
    [⟨1, ("threshold"), 0, ("warn")⟩,
     ⟨1, ("threshold"), 5, ("timeout 3600")⟩,
     ⟨1, ("threshold"), 10, ("ban")⟩] 1 5
    ⟨1, ("threshold"), 5, ("timeout 3600")⟩
    (by decide) (by decide) (by decide) (by decide) (by decide)
    (by decide)).1

/-- Claim C1 counterexample: the threshold query of cmd_add applies no
decay at read time.  With decay 100 and a single 5-point entry stamped at
time 0, an evaluation whose notional read time is 1000 (far past expiry)
still counts the entry and selects the kick action, while the read-time
decayed evaluation the claim describes selects nothing. -/
theorem evaluateThreshold_counts_expired_entry :
    evaluateThreshold
      [⟨1, ("decay"), 100, ("")⟩,
       ⟨1, ("threshold"), 0, ("warn")⟩,
       ⟨1, ("threshold"), 5, ("kick")⟩]
      [⟨1, 2, 3, ("aaaa"), ("spam"), 5, 0, none⟩] 1 2
      = some (("kick"), 5)
    ∧ specEvaluateThreshold
      [⟨1, ("decay"), 100, ("")⟩,
       ⟨1, ("threshold"), 0, ("warn")⟩,
       ⟨1, ("threshold"), 5, ("kick")⟩]
      [⟨1, 2, 3, ("aaaa"), ("spam"), 5, 0, none⟩] 1 2 1000
      = none := by
  exact ⟨by decide, by decide⟩

/-- Claim C1 (corrected, amended form): decay is enforced by the daily
prune task, not at read time.  The threshold query sums every entry
currently stored for the subject; immediately after the prune task has
deleted the expired entries of the guild at time t, the evaluation
coincides with the read-time-decayed evaluation the spec describes. -/
theorem evaluateThreshold_decay_by_pruning
    (cfg : List CfgRow) (db : List StrikeRow) (g u : Nat) (t d : Int)
    (hd : decayOf cfg g = some d) :
    evaluateThreshold cfg (delexpiredGuild cfg g t db) g u
      = specEvaluateThreshold cfg db g u t := by
  unfold evaluateThreshold specEvaluateThreshold delexpiredGuild specDecayedSum
  rw [hd]
  have hrows :
      (db.filter (fun r => !(decide (r.guildid = g ∧ r.ts + d ≤ t)))).filter
        (fun r => decide (r.guildid = g ∧ r.uid = u))
      = db.filter (fun r =>
          decide (r.guildid = g ∧ r.uid = u ∧ ¬(r.ts + d ≤ t))) := by
    rw [List.filter_filter]
    apply List.filter_congr
    intro r _
    by_cases h1 : r.guildid = g <;> by_cases h2 : r.uid = u <;>
      by_cases h3 : r.ts + d ≤ t <;> simp [h1, h2, h3]
  unfold totalSum
  simp only [hrows]

/-- Witness for the amended C1: the concrete expired entry of the
counterexample is pruned at time 1000, after which both evaluations
agree (both select nothing). -/
theorem evaluateThreshold_decay_by_pruning_witness :
    evaluateThreshold
      [⟨1, ("decay"), 100, ("")⟩,
       ⟨1, ("threshold"), 0, ("warn")⟩,
       ⟨1, ("threshold"), 5, ("kick")⟩]
      (delexpiredGuild
        [⟨1, ("decay"), 100, ("")⟩,
         ⟨1, ("threshold"), 0, ("warn")⟩,
         ⟨1, ("threshold"), 5, ("kick")⟩] 1 1000
        [⟨1, 2, 3, ("aaaa"), ("spam"), 5, 0, none⟩]) 1 2
    = specEvaluateThreshold
      [⟨1, ("decay"), 100, ("")⟩,
       ⟨1, ("threshold"), 0, ("warn")⟩,
       ⟨1, ("threshold"), 5, ("kick")⟩]
      [⟨1, 2, 3, ("aaaa"), ("spam"), 5, 0, none⟩] 1 2 1000 :=
  evaluateThreshold_decay_by_pruning _ _ 1 2 1000 100 (by decide)

/-- Claim C4 (code bug): the duration parser drops every term of a run
except the last one, because re.findall applied to a repeated capture
group returns only the last capture of each match.  The string 1w2d
therefore parses to 172800 seconds (the 2d term alone) rather than the
777600 the fixed table prescribes; the single-term string 1y parses
correctly; the per-term sum the spec describes does give 777600. -/
theorem iso8601tosec_drops_all_but_last_term :
    iso8601tosec ("1w2d") = .ok 172800
    ∧ iso8601tosec ("1w2d") ≠ .ok 777600
    ∧ iso8601tosec ("1y") = .ok 29030400
    ∧ specDurationSum ("1w2d") = 777600 := by
  refine ⟨rfl, ?_, rfl, rfl⟩
  intro h
  have h1 : iso8601tosec ("1w2d") = .ok 172800 := rfl
  rw [h1] at h
  injection h with h2
  exact absurd h2 (by decide)

/-- Claim C8 (confirmed): persistence of the strike entry is independent
of enforcement.  Once validation passes and the entry with id sid has
been inserted and committed, a permission denial of the selected
timeout, kick or ban actuation surfaces as the distinct
missingPermissions error while the committed table still contains the
new entry (no branch deletes it). -/
theorem cmd_add_strike_persists_on_denial
    (cfg : List CfgRow) (db : List StrikeRow) (g u issuer : Nat)
    (pt : Int) (reason : String) (ts : Int) (sid : String)
    (msgref : Option String) (callerKick callerBan : Bool)
    (p2 : String) (tot : Int)
    (hrej : cmd_addRejects pt reason = false)
    (hsel : evaluateThreshold cfg
      (db ++ [⟨g, u, issuer, sid, reason, pt, ts, msgref⟩]) g u
      = some (p2, tot))
    (hcmd : (pySplitSpace p2).headD ("") = ("timeout")
      ∨ (pySplitSpace p2).headD ("") = ("kick")
      ∨ (pySplitSpace p2).headD ("") = ("ban"))
    (harg : (pySplitSpace p2).headD ("") = ("timeout") →
      (pyInt? ((pySplitSpace p2).getD 1 (""))).isSome) :
    (cmd_add cfg db g u issuer pt reason ts sid msgref
      callerKick callerBan true).2 = .error .missingPermissions
    ∧ (cmd_add cfg db g u issuer pt reason ts sid msgref
      callerKick callerBan true).1
      = db ++ [⟨g, u, issuer, sid, reason, pt, ts, msgref⟩]
    ∧ (⟨g, u, issuer, sid, reason, pt, ts, msgref⟩ : StrikeRow)
      ∈ (cmd_add cfg db g u issuer pt reason ts sid msgref
        callerKick callerBan true).1 := by
  have hfinal :
      (cmd_add cfg db g u issuer pt reason ts sid msgref
        callerKick callerBan true)
      = (db ++ [⟨g, u, issuer, sid, reason, pt, ts, msgref⟩],
         .error .missingPermissions) := by
    unfold cmd_add
    rw [hrej]
    simp only [Bool.false_eq_true, if_false, hsel]
    rcases hcmd with hc | hc | hc
    · rw [hc]
      cases hti : pyInt? ((pySplitSpace p2).getD 1 ("")) with
      | none =>
        have := harg hc
        rw [hti] at this
        exact absurd this (by simp)
      | some v => simp
    · rw [hc]
      cases callerKick <;> simp
    · rw [hc]
      cases callerBan <;> simp
  rw [hfinal]
  exact ⟨rfl, rfl, List.mem_append_right _ (List.mem_singleton.mpr rfl)⟩

/-- Witness for C8: a single 0-floor timeout threshold, an empty table
and a denied timeout call, with the strike entry present afterwards. -/
theorem cmd_add_strike_persists_on_denial_witness :
    (cmd_add [⟨1, ("threshold"), 0, ("timeout 3600")⟩] [] 1 2 3 1 ("spam")
      7 ("ab12") none false false true).2 = .error .missingPermissions
    ∧ (cmd_add [⟨1, ("threshold"), 0, ("timeout 3600")⟩] [] 1 2 3 1 ("spam")
      7 ("ab12") none false false true).1
      = [] ++ [⟨1, 2, 3, ("ab12"), ("spam"), 1, 7, none⟩]
    ∧ (⟨1, 2, 3, ("ab12"), ("spam"), 1, 7, none⟩ : StrikeRow)
      ∈ (cmd_add [⟨1, ("threshold"), 0, ("timeout 3600")⟩] [] 1 2 3 1 ("spam")
        7 ("ab12") none false false true).1 :=
  cmd_add_strike_persists_on_denial
    [⟨1, ("threshold"), 0, ("timeout 3600")⟩] [] 1 2 3 1 ("spam") 7 ("ab12")
    none false false ("timeout 3600") 1
    (by decide) (by decide) (Or.inl (by decide)) (fun _ => by decide)

theorem addStrikeLoop_succeeds
    (genids : Nat → String) (ins : String → Bool) :
    ∀ (fuel k : Nat), (∃ j, j < fuel ∧ ins (genids (k + j)) = true) →
      ∃ s, addStrikeLoop genids ins k fuel = some s := by
  intro fuel
  induction fuel with
  | zero => intro k h; rcases h with ⟨j, hj, _⟩; cases hj
  | succ f ih =>
    intro k h
    rcases h with ⟨j, hj, hins⟩
    by_cases hk : ins (genids k) = true
    · exact ⟨genids k, by simp [addStrikeLoop, hk]⟩
    · cases j with
      | zero => exact absurd (by simpa using hins) hk
      | succ j2 =>
        have := ih (k + 1) ⟨j2, Nat.lt_of_succ_lt_succ hj, by
          have : k + 1 + j2 = k + (j2 + 1) := by omega
          rw [this]; exact hins⟩
        rcases this with ⟨s, hs⟩
        refine ⟨s, ?_⟩
        simp only [addStrikeLoop, hk, if_false, Bool.false_eq_true]
        exact hs

/-- Claim C10 (confirmed): the id-generation retry loop of cmd_add
terminates only under the precondition that insert failures are id
collisions.  The bare except retries unconditionally, so for a
validation-passing reason whose embedded single quotes do not pair up
(the interpolated INSERT statement is malformed on every attempt) the
loop never yields an id at any fuel, while for a well-formed reason the
loop terminates as soon as the generator produces a non-colliding id. -/
theorem addStrikeLoop_conditional_termination
    (genids : Nat → String) (used : List String)
    (reasonBad reasonOk : String) (n : Nat)
    (hbadq : quotesPaired reasonBad.toList = false)
    (hbadne : reasonBad ≠ (""))
    (hokq : quotesPaired reasonOk.toList = true)
    (hfresh : genids n ∉ used) :
    cmd_addRejects 1 reasonBad = false
    ∧ (∀ k fuel, addStrikeLoop genids (insertOk used reasonBad) k fuel = none)
    ∧ (∃ s, addStrikeLoop genids (insertOk used reasonOk) 0 (n + 1) = some s) := by
  have hbadq2 : quotesPaired reasonBad.data = false := hbadq
  have hokq2 : quotesPaired reasonOk.data = true := hokq
  refine ⟨?_, ?_, ?_⟩
  · simp [cmd_addRejects, hbadne]
  · have hins : ∀ sid, insertOk used reasonBad sid = false := by
      intro sid
      simp [insertOk, hbadq2]
    intro k fuel
    induction fuel generalizing k with
    | zero => rfl
    | succ f ih =>
      simp only [addStrikeLoop, hins, if_false, Bool.false_eq_true]
      exact ih (k + 1)
  · exact addStrikeLoop_succeeds genids (insertOk used reasonOk) (n + 1) 0
      ⟨n, Nat.lt_succ_self n, by simp [insertOk, hokq2, hfresh]⟩

/-- Witness for C10: the reason string it-quote-s (an apostrophe inside
the text) passes validation yet makes the loop spin forever, while a
quote-free reason lets the first fresh id succeed. -/
theorem addStrikeLoop_conditional_termination_witness :
    cmd_addRejects 1 (String.mk [('i' : Char), ('t' : Char), squote, ('s' : Char)]) = false
    ∧ addStrikeLoop (fun _ => ("aaaa"))
        (insertOk [] (String.mk [('i' : Char), ('t' : Char), squote, ('s' : Char)])) 0 5 = none
    ∧ (∃ s, addStrikeLoop (fun _ => ("aaaa")) (insertOk [] ("ok")) 0 1 = some s) := by
  have h := addStrikeLoop_conditional_termination (fun _ => ("aaaa")) []
    (String.mk [('i' : Char), ('t' : Char), squote, ('s' : Char)]) ("ok") 0
    (by decide) (by decide) (by decide) (by decide)
  exact ⟨h.1, h.2.1 0 5, h.2.2⟩

/-! ### Lemmas about guild reconciliation -/

theorem updRowField_id (r : GuildRow) (fv : GField × UpdVal) :
    (updRowField r fv).id = r.id := by
  rcases fv with ⟨f, v⟩
  cases f <;> cases v <;> rfl

theorem findGuild_map (f : GuildRow → GuildRow)
    (hid : ∀ r, (f r).id = r.id) (l : List GuildRow) (g : Nat) :
    findGuild (l.map f) g = (findGuild l g).map f := by
  have hp : ((fun x : GuildRow => decide (x.id = g)) ∘ f)
      = (fun r : GuildRow => decide (r.id = g)) := by
    funext r
    simp [Function.comp, hid r]
  unfold findGuild
  rw [List.find?_map, hp]

theorem findGuild_id {l : List GuildRow} {g : Nat} {r : GuildRow}
    (h : findGuild l g = some r) : r.id = g := by
  have := List.find?_some h
  simpa using this

theorem findGuild_mem {l : List GuildRow} {g : Nat} {r : GuildRow}
    (h : findGuild l g = some r) : r ∈ l :=
  List.mem_of_find?_eq_some h

theorem findGuild_of_mem {l : List GuildRow} {g : Nat} {r : GuildRow}
    (hnd : (l.map (fun r => r.id)).Nodup) (hr : r ∈ l) (hid : r.id = g) :
    findGuild l g = some r := by
  cases hf : findGuild l g with
  | none =>
    rw [findGuild, List.find?_eq_none] at hf
    exact absurd (by simp [hid]) (hf r hr)
  | some r2 =>
    have h2 := findGuild_id hf
    have hmem2 := findGuild_mem hf
    have : r2 = r :=
      List.inj_on_of_nodup_map hnd hmem2 hr (by rw [h2, hid])
    rw [this]

theorem findGuild_updgentry_ne (gid : Nat) (values : List (GField × UpdVal)) :
    ∀ (l : List GuildRow) (g : Nat), g ≠ gid →
      findGuild (updgentry l gid values) g = findGuild l g := by
  induction values with
  | nil => intro l g _; rfl
  | cons fv rest ih =>
    intro l g hne
    show findGuild (updgentry
      (l.map (fun r => if r.id = gid then updRowField r fv else r)) gid rest) g
      = findGuild l g
    rw [ih _ g hne]
    rw [findGuild_map _ (fun r => by
      by_cases h : r.id = gid <;> simp [h, updRowField_id])]
    cases hf : findGuild l g with
    | none => rfl
    | some r =>
      have hr := findGuild_id hf
      simp [hr, hne]

theorem findGuild_updgentry_self (gid : Nat) (values : List (GField × UpdVal)) :
    ∀ (l : List GuildRow),
      findGuild (updgentry l gid values) gid
        = (findGuild l gid).map (fun r => values.foldl updRowField r) := by
  induction values with
  | nil =>
    intro l
    cases hf : findGuild l gid <;> simp [updgentry, hf]
  | cons fv rest ih =>
    intro l
    show findGuild (updgentry
      (l.map (fun r => if r.id = gid then updRowField r fv else r)) gid rest) gid
      = (findGuild l gid).map (fun r => (fv :: rest).foldl updRowField r)
    rw [ih]
    rw [findGuild_map _ (fun r => by
      by_cases h : r.id = gid <;> simp [h, updRowField_id])]
    cases hf : findGuild l gid with
    | none => rfl
    | some r =>
      have hr := findGuild_id hf
      simp [hr]

theorem updgentry_ids (gid : Nat) (values : List (GField × UpdVal)) :
    ∀ (l : List GuildRow),
      (updgentry l gid values).map (fun r => r.id) = l.map (fun r => r.id) := by
  induction values with
  | nil => intro l; rfl
  | cons fv rest ih =>
    intro l
    show (updgentry
      (l.map (fun r => if r.id = gid then updRowField r fv else r)) gid rest).map
        (fun r => r.id) = l.map (fun r => r.id)
    rw [ih, List.map_map]
    apply List.map_congr_left
    intro r _
    by_cases h : r.id = gid <;> simp [Function.comp, h, updRowField_id]

theorem addgentry_findGuild_self (t : GuildTables) (gid : Nat) (tnow : Int) :
    findGuild (addgentry t gid tnow).guilds gid = some ⟨gid, some tnow, none⟩ := by
  unfold addgentry
  cases hf : findGuild t.guilds gid with
  | some r =>
    simp only
    rw [findGuild_updgentry_self, hf]
    have hid := findGuild_id hf
    cases r with
    | mk rid rj rl =>
      simp only at hid
      simp [updRowField, hid]
  | none =>
    simp only
    rw [findGuild, List.find?_append]
    rw [show t.guilds.find? (fun r => decide (r.id = gid)) = none from hf]
    simp [List.find?]

theorem addgentry_findGuild_ne (t : GuildTables) (gid : Nat) (tnow : Int)
    (g : Nat) (hne : g ≠ gid) :
    findGuild (addgentry t gid tnow).guilds g = findGuild t.guilds g := by
  unfold addgentry
  cases hf : findGuild t.guilds gid with
  | some r =>
    simp only
    exact findGuild_updgentry_ne gid _ t.guilds g hne
  | none =>
    simp only
    rw [findGuild, List.find?_append]
    have : [(⟨gid, some tnow, none⟩ : GuildRow)].find?
        (fun r => decide (r.id = g)) = none := by
      simp [List.find?, Ne.symm hne]
    rw [this]
    simp [findGuild]

theorem syncdbStep_findGuild_ne (tnow : Int) (t : GuildTables) (a : Nat × Nat)
    (g : Nat) (hne : g ≠ a.1) :
    findGuild (syncdbStep tnow t a).guilds g = findGuild t.guilds g := by
  unfold syncdbStep
  by_cases h1 : a.2 = 1
  · rw [if_pos h1]
    exact addgentry_findGuild_ne t a.1 tnow g hne
  · rw [if_neg h1]
    by_cases h23 : a.2 = 2 ∨ a.2 = 3
    · rw [if_pos h23]
      exact findGuild_updgentry_ne a.1 _ t.guilds g hne
    · rw [if_neg h23]

theorem syncdbStep_findGuild_self (tnow : Int) (t : GuildTables) (gid a : Nat) :
    findGuild (syncdbStep tnow t (gid, a)).guilds gid
      = actionOnRow tnow a gid (findGuild t.guilds gid) := by
  by_cases h1 : a = 1
  · subst h1
    simp [syncdbStep, actionOnRow, addgentry_findGuild_self]
  · by_cases h2 : a = 2
    · subst h2
      simp only [syncdbStep, actionOnRow]
      norm_num
      rw [findGuild_updgentry_self]
      cases hf : findGuild t.guilds gid with
      | none => rfl
      | some r => simp [updRowField]
    · by_cases h3 : a = 3
      · subst h3
        simp only [syncdbStep, actionOnRow]
        norm_num
        rw [findGuild_updgentry_self]
        cases hf : findGuild t.guilds gid with
        | none => rfl
        | some r => simp [updRowField]
      · simp [syncdbStep, actionOnRow, h1, h2, h3]

theorem syncdbApply_findGuild_frame (tnow : Int) :
    ∀ (clist : List (Nat × Nat)) (t : GuildTables) (g : Nat),
      (∀ p ∈ clist, g ≠ p.1) →
      findGuild (syncdbApply t clist tnow).guilds g = findGuild t.guilds g := by
  intro clist
  induction clist with
  | nil => intro t g _; rfl
  | cons p rest ih =>
    intro t g hall
    show findGuild (syncdbApply (syncdbStep tnow t p) rest tnow).guilds g
      = findGuild t.guilds g
    rw [ih _ g (fun q hq => hall q (List.mem_cons_of_mem p hq))]
    exact syncdbStep_findGuild_ne tnow t p g (hall p (List.mem_cons_self p rest))

theorem syncdbApply_findGuild_act (tnow : Int) :
    ∀ (clist : List (Nat × Nat)) (t : GuildTables) (g a : Nat),
      (clist.map Prod.fst).Nodup → (g, a) ∈ clist →
      findGuild (syncdbApply t clist tnow).guilds g
        = actionOnRow tnow a g (findGuild t.guilds g) := by
  intro clist
  induction clist with
  | nil => intro t g a _ hmem; cases hmem
  | cons p rest ih =>
    intro t g a hnd hmem
    rw [List.map_cons, List.nodup_cons] at hnd
    rcases List.mem_cons.mp hmem with heq | hmem2
    · rcases p with ⟨p1, p2⟩
      rw [Prod.mk.injEq] at heq
      rcases heq with ⟨hg, ha⟩
      subst hg
      subst ha
      show findGuild (syncdbApply (syncdbStep tnow t (g, a)) rest tnow).guilds g
        = actionOnRow tnow a g (findGuild t.guilds g)
      rw [syncdbApply_findGuild_frame tnow rest _ g (by
        intro q hq hgq
        exact hnd.1 (by
          rw [hgq]
          exact List.mem_map.mpr ⟨q, hq, rfl⟩))]
      exact syncdbStep_findGuild_self tnow t g a
    · have hg2 : g ∈ rest.map Prod.fst :=
        List.mem_map.mpr ⟨(g, a), hmem2, rfl⟩
      have hpg : g ≠ p.1 := by
        intro h
        exact hnd.1 (h ▸ hg2)
      show findGuild (syncdbApply (syncdbStep tnow t p) rest tnow).guilds g
        = actionOnRow tnow a g (findGuild t.guilds g)
      rw [ih _ g a hnd.2 hmem2]
      rw [syncdbStep_findGuild_ne tnow t p g hpg]

theorem anyId_eq_false_iff (guilds : List GuildRow) (g : Nat) :
    (guilds.any (fun r => decide (r.id = g)) = false) ↔ findGuild guilds g = none := by
  rw [findGuild, List.find?_eq_none, ← Bool.not_eq_true, List.any_eq_true]
  simp

theorem contains_nat_eq (glist : List Nat) (e : Nat) :
    glist.contains e = decide (e ∈ glist) := by
  show glist.elem e = decide (e ∈ glist)
  exact List.elem_eq_mem e glist

theorem mem_syncdbClist (guilds : List GuildRow) (glist : List Nat) (g a : Nat) :
    (g, a) ∈ syncdbClist guilds glist ↔
      (a = 1 ∧ g ∈ glist ∧ findGuild guilds g = none)
      ∨ (a = 2 ∧ g ∉ glist ∧ ∃ r, r ∈ guilds ∧ r.id = g ∧ r.left = none)
      ∨ (a = 3 ∧ g ∈ glist ∧ (∃ r, r ∈ guilds ∧ r.id = g)
          ∧ ¬∃ r, r ∈ guilds ∧ r.id = g ∧ r.left = none) := by
  constructor
  · intro h
    rcases List.mem_append.mp h with h12 | h3
    · rcases List.mem_append.mp h12 with h1 | h2
      · rcases List.mem_map.mp h1 with ⟨e, he, heq⟩
        rw [Prod.mk.injEq] at heq
        rcases List.mem_filter.mp he with ⟨hgl, hpred⟩
        rw [Bool.not_eq_true'] at hpred
        refine Or.inl ⟨heq.2.symm, heq.1 ▸ hgl, ?_⟩
        rw [← heq.1]
        exact (anyId_eq_false_iff guilds e).mp hpred
      · rcases List.mem_map.mp h2 with ⟨e, he, heq⟩
        rw [Prod.mk.injEq] at heq
        rcases List.mem_filter.mp he with ⟨_, hpred⟩
        rw [Bool.and_eq_true, Bool.not_eq_true'] at hpred
        refine Or.inr (Or.inl ⟨heq.2.symm, ?_, ?_⟩)
        · rw [← heq.1]
          intro hmem
          rw [contains_nat_eq] at hpred
          have := hpred.1
          simp [hmem] at this
        · rw [← heq.1]
          have := hpred.2
          rw [List.any_eq_true] at this
          rcases this with ⟨r, hr, hrp⟩
          rw [decide_eq_true_eq] at hrp
          exact ⟨r, hr, hrp.1, hrp.2⟩
    · rcases List.mem_map.mp h3 with ⟨e, he, heq⟩
      rw [Prod.mk.injEq] at heq
      rcases List.mem_filter.mp he with ⟨hgl, hpred⟩
      rw [Bool.and_eq_true, Bool.not_eq_true'] at hpred
      refine Or.inr (Or.inr ⟨heq.2.symm, heq.1 ▸ hgl, ?_, ?_⟩)
      · rw [← heq.1]
        have := hpred.1
        rw [List.any_eq_true] at this
        rcases this with ⟨r, hr, hrp⟩
        rw [decide_eq_true_eq] at hrp
        exact ⟨r, hr, hrp⟩
      · rw [← heq.1]
        intro hex
        rcases hex with ⟨r, hr, hid, hleft⟩
        have := hpred.2
        rw [← Bool.not_eq_true, List.any_eq_true] at this
        exact this ⟨r, hr, by simp [hid, hleft]⟩
  · intro h
    rcases h with ⟨ha, hgl, hfind⟩ | ⟨ha, hgl, r, hr, hid, hleft⟩ |
      ⟨ha, hgl, hex, hnex⟩
    · subst ha
      apply List.mem_append.mpr
      apply Or.inl
      apply List.mem_append.mpr
      apply Or.inl
      apply List.mem_map.mpr
      refine ⟨g, List.mem_filter.mpr ⟨hgl, ?_⟩, rfl⟩
      rw [Bool.not_eq_true']
      exact (anyId_eq_false_iff guilds g).mpr hfind
    · subst ha
      apply List.mem_append.mpr
      apply Or.inl
      apply List.mem_append.mpr
      apply Or.inr
      apply List.mem_map.mpr
      refine ⟨g, List.mem_filter.mpr ⟨?_, ?_⟩, rfl⟩
      · exact List.mem_map.mpr ⟨r, hr, hid⟩
      · rw [Bool.and_eq_true, Bool.not_eq_true']
        constructor
        · rw [contains_nat_eq]
          simp [hgl]
        · rw [List.any_eq_true]
          exact ⟨r, hr, by simp [hid, hleft]⟩
    · subst ha
      apply List.mem_append.mpr
      apply Or.inr
      apply List.mem_map.mpr
      refine ⟨g, List.mem_filter.mpr ⟨hgl, ?_⟩, rfl⟩
      rw [Bool.and_eq_true, Bool.not_eq_true']
      constructor
      · rw [List.any_eq_true]
        rcases hex with ⟨r, hr, hid⟩
        exact ⟨r, hr, by simp [hid]⟩
      · rw [Bool.eq_false_iff]
        intro hany
        rw [List.any_eq_true] at hany
        rcases hany with ⟨r, hr, hp⟩
        rw [decide_eq_true_eq] at hp
        exact hnex ⟨r, hr, hp.1, hp.2⟩

theorem syncdbClist_ids_nodup (guilds : List GuildRow) (glist : List Nat)
    (hnd : (guilds.map (fun r => r.id)).Nodup) (hg : glist.Nodup) :
    ((syncdbClist guilds glist).map Prod.fst).Nodup := by
  have hids : ∀ (l : List Nat) (n : Nat),
      ((l.map (fun e => (e, n))).map Prod.fst) = l := by
    intro l n
    rw [List.map_map]
    exact List.map_id l
  unfold syncdbClist
  rw [List.map_append, List.map_append, hids, hids, hids]
  rw [List.nodup_append, List.nodup_append]
  refine ⟨⟨hg.filter _, hnd.filter _, ?_⟩, hg.filter _, ?_⟩
  · intro e he1 he2
    rcases List.mem_filter.mp he1 with ⟨_, hp1⟩
    rcases List.mem_filter.mp he2 with ⟨hmem2, _⟩
    rw [Bool.not_eq_true'] at hp1
    rw [anyId_eq_false_iff, findGuild, List.find?_eq_none] at hp1
    rcases List.mem_map.mp hmem2 with ⟨r, hr, hre⟩
    exact hp1 r hr (by simp [hre])
  · intro e he hf3
    rcases List.mem_filter.mp hf3 with ⟨hgl3, hp3⟩
    rw [Bool.and_eq_true] at hp3
    rcases List.mem_append.mp he with he1 | he2
    · rcases List.mem_filter.mp he1 with ⟨_, hp1⟩
      rw [Bool.not_eq_true'] at hp1
      rw [anyId_eq_false_iff, findGuild, List.find?_eq_none] at hp1
      have hex := hp3.1
      rw [List.any_eq_true] at hex
      rcases hex with ⟨r, hr, hrp⟩
      rw [decide_eq_true_eq] at hrp
      exact hp1 r hr (by simp [hrp])
    · rcases List.mem_filter.mp he2 with ⟨_, hp2⟩
      rw [Bool.and_eq_true, Bool.not_eq_true'] at hp2
      have := hp2.1
      rw [contains_nat_eq] at this
      simp [hgl3] at this

theorem addgentry_ids_nodup (t : GuildTables) (gid : Nat) (tnow : Int)
    (hnd : (t.guilds.map (fun r => r.id)).Nodup) :
    ((addgentry t gid tnow).guilds.map (fun r => r.id)).Nodup := by
  unfold addgentry
  cases hf : findGuild t.guilds gid with
  | some r =>
    rw [updgentry_ids]
    exact hnd
  | none =>
    simp only
    rw [List.map_append]
    refine List.Nodup.append hnd (by simp) ?_
    intro e he1 he2
    simp only [List.map_cons, List.map_nil, List.mem_singleton] at he2
    rw [findGuild, List.find?_eq_none] at hf
    rcases List.mem_map.mp he1 with ⟨r2, hr2, hre⟩
    exact hf r2 hr2 (by simp [hre, he2])

theorem syncdbStep_ids_nodup (tnow : Int) (t : GuildTables) (a : Nat × Nat)
    (hnd : (t.guilds.map (fun r => r.id)).Nodup) :
    ((syncdbStep tnow t a).guilds.map (fun r => r.id)).Nodup := by
  unfold syncdbStep
  by_cases h1 : a.2 = 1
  · rw [if_pos h1]
    exact addgentry_ids_nodup t a.1 tnow hnd
  · rw [if_neg h1]
    by_cases h23 : a.2 = 2 ∨ a.2 = 3
    · rw [if_pos h23]
      show ((updgentry t.guilds a.1 _).map (fun r => r.id)).Nodup
      rw [updgentry_ids]
      exact hnd
    · rw [if_neg h23]
      exact hnd

theorem syncdbApply_ids_nodup (tnow : Int) :
    ∀ (clist : List (Nat × Nat)) (t : GuildTables),
      (t.guilds.map (fun r => r.id)).Nodup →
      ((syncdbApply t clist tnow).guilds.map (fun r => r.id)).Nodup := by
  intro clist
  induction clist with
  | nil => intro t h; exact h
  | cons p rest ih =>
    intro t h
    exact ih _ (syncdbStep_ids_nodup tnow t p h)

theorem syncdb_run1_left_none (t : GuildTables) (glist : List Nat) (tnow : Int)
    (hnd : (t.guilds.map (fun r => r.id)).Nodup) (hg : glist.Nodup)
    (g : Nat) (hmem : g ∈ glist) :
    ∃ r, findGuild (syncdb t glist tnow).2.guilds g = some r ∧ r.left = none := by
  have hcnd := syncdbClist_ids_nodup t.guilds glist hnd hg
  have hres : (syncdb t glist tnow).2
      = syncdbApply t (syncdbClist t.guilds glist) tnow := rfl
  cases hf : findGuild t.guilds g with
  | none =>
    have hmem1 : (g, 1) ∈ syncdbClist t.guilds glist :=
      (mem_syncdbClist _ _ g 1).mpr (Or.inl ⟨rfl, hmem, hf⟩)
    refine ⟨⟨g, some tnow, none⟩, ?_, rfl⟩
    rw [hres, syncdbApply_findGuild_act tnow _ t g 1 hcnd hmem1]
    rfl
  | some r0 =>
    cases hl : r0.left with
    | none =>
      have hno : ∀ p ∈ syncdbClist t.guilds glist, g ≠ p.1 := by
        rintro ⟨e, b⟩ hp hge
        have hge2 : g = e := hge
        rw [← hge2] at hp
        rcases (mem_syncdbClist _ _ g b).mp hp with ⟨_, _, hfind⟩ |
          ⟨_, hgl, _⟩ | ⟨_, _, _, hnex⟩
        · rw [hf] at hfind
          cases hfind
        · exact hgl hmem
        · exact hnex ⟨r0, findGuild_mem hf, findGuild_id hf, hl⟩
      refine ⟨r0, ?_, hl⟩
      rw [hres, syncdbApply_findGuild_frame tnow _ t g hno]
      exact hf
    | some x =>
      have hmem3 : (g, 3) ∈ syncdbClist t.guilds glist := by
        apply (mem_syncdbClist _ _ g 3).mpr
        refine Or.inr (Or.inr ⟨rfl, hmem,
          ⟨r0, findGuild_mem hf, findGuild_id hf⟩, ?_⟩)
        rintro ⟨r2, hr2, hid2, hleft2⟩
        have heq : r2 = r0 := List.inj_on_of_nodup_map hnd hr2
          (findGuild_mem hf) (by rw [hid2, findGuild_id hf])
        rw [heq, hl] at hleft2
        cases hleft2
      refine ⟨{ r0 with joined := some tnow, left := none }, ?_, rfl⟩
      rw [hres, syncdbApply_findGuild_act tnow _ t g 3 hcnd hmem3, hf]
      rfl

theorem syncdb_run1_left_stamped (t : GuildTables) (glist : List Nat)
    (tnow : Int)
    (hnd : (t.guilds.map (fun r => r.id)).Nodup) (hg : glist.Nodup)
    (g : Nat) (hnmem : g ∉ glist) :
    ∀ r, findGuild (syncdb t glist tnow).2.guilds g = some r →
      r.left ≠ none := by
  have hcnd := syncdbClist_ids_nodup t.guilds glist hnd hg
  have hres : (syncdb t glist tnow).2
      = syncdbApply t (syncdbClist t.guilds glist) tnow := rfl
  cases hf : findGuild t.guilds g with
  | none =>
    have hno : ∀ p ∈ syncdbClist t.guilds glist, g ≠ p.1 := by
      rintro ⟨e, b⟩ hp hge
      have hge2 : g = e := hge
      rw [← hge2] at hp
      rcases (mem_syncdbClist _ _ g b).mp hp with ⟨_, hgl, _⟩ |
        ⟨_, _, r2, hr2, hid2, _⟩ | ⟨_, hgl, _, _⟩
      · exact hnmem hgl
      · rw [findGuild, List.find?_eq_none] at hf
        exact hf r2 hr2 (by simp [hid2])
      · exact hnmem hgl
    intro r hr
    rw [hres, syncdbApply_findGuild_frame tnow _ t g hno, hf] at hr
    cases hr
  | some r0 =>
    cases hl : r0.left with
    | none =>
      have hmem2 : (g, 2) ∈ syncdbClist t.guilds glist :=
        (mem_syncdbClist _ _ g 2).mpr (Or.inr (Or.inl ⟨rfl, hnmem,
          ⟨r0, findGuild_mem hf, findGuild_id hf, hl⟩⟩))
      intro r hr
      rw [hres, syncdbApply_findGuild_act tnow _ t g 2 hcnd hmem2, hf] at hr
      have : r = { r0 with left := some tnow } := by
        simpa [actionOnRow] using hr.symm
      rw [this]
      simp
    | some x =>
      have hno : ∀ p ∈ syncdbClist t.guilds glist, g ≠ p.1 := by
        rintro ⟨e, b⟩ hp hge
        have hge2 : g = e := hge
        rw [← hge2] at hp
        rcases (mem_syncdbClist _ _ g b).mp hp with ⟨_, hgl, _⟩ |
          ⟨_, _, r2, hr2, hid2, hleft2⟩ | ⟨_, hgl, _, _⟩
        · exact hnmem hgl
        · have heq : r2 = r0 := List.inj_on_of_nodup_map hnd hr2
            (findGuild_mem hf) (by rw [hid2, findGuild_id hf])
          rw [heq, hl] at hleft2
          cases hleft2
        · exact hnmem hgl
      intro r hr
      rw [hres, syncdbApply_findGuild_frame tnow _ t g hno, hf] at hr
      injection hr with hr
      rw [← hr, hl]
      simp

/-- Claim C2 (confirmed): reconciliation is idempotent.  For any stored
guild table with distinct ids and any observed guild-id set, running
syncdb once and then running it again on the resulting store with the
same observed set produces an empty command list, leaves the store
untouched, and the first run never duplicates rows (ids stay distinct). -/
theorem syncdb_reconcile_idempotent (t : GuildTables) (glist : List Nat)
    (tnow tnow2 : Int)
    (hnd : (t.guilds.map (fun r => r.id)).Nodup) (hg : glist.Nodup) :
    (syncdb (syncdb t glist tnow).2 glist tnow2).1 = []
    ∧ (syncdb (syncdb t glist tnow).2 glist tnow2).2 = (syncdb t glist tnow).2
    ∧ ((syncdb t glist tnow).2.guilds.map (fun r => r.id)).Nodup := by
  have hnd1 : ((syncdb t glist tnow).2.guilds.map (fun r => r.id)).Nodup :=
    syncdbApply_ids_nodup tnow _ t hnd
  have hempty : syncdbClist (syncdb t glist tnow).2.guilds glist = [] := by
    rw [List.eq_nil_iff_forall_not_mem]
    rintro ⟨g, a⟩ hp
    rcases (mem_syncdbClist _ _ g a).mp hp with ⟨_, hgl, hfind⟩ |
      ⟨_, hgl, r, hr, hid, hleft⟩ | ⟨_, hgl, _, hnex⟩
    · rcases syncdb_run1_left_none t glist tnow hnd hg g hgl with ⟨r, hrf, _⟩
      rw [hfind] at hrf
      cases hrf
    · have hfr : findGuild (syncdb t glist tnow).2.guilds g = some r :=
        findGuild_of_mem hnd1 hr hid
      exact syncdb_run1_left_stamped t glist tnow hnd hg g hgl r hfr hleft
    · rcases syncdb_run1_left_none t glist tnow hnd hg g hgl with ⟨r, hrf, hl⟩
      exact hnex ⟨r, findGuild_mem hrf, findGuild_id hrf, hl⟩
  refine ⟨hempty, ?_, hnd1⟩
  show syncdbApply (syncdb t glist tnow).2
    (syncdbClist (syncdb t glist tnow).2.guilds glist) tnow2
    = (syncdb t glist tnow).2
  rw [hempty]
  rfl

/-- Witness for C2: a store holding an active guild 1, a departed guild 2
and an active guild 4, reconciled against the observed set containing
guild 2 (rejoin) and guild 5 (join); the second run issues no actions. -/
theorem syncdb_reconcile_idempotent_witness :
    (syncdb (syncdb
      ⟨[⟨1, some 0, none⟩, ⟨2, some 0, some 3⟩, ⟨4, some 0, none⟩],
       [(1, ("\x7b\x7d")), (2, ("\x7b\x7d")), (4, ("\x7b\x7d"))]⟩
      [2, 5] 10).2 [2, 5] 20).1 = [] :=
  (syncdb_reconcile_idempotent
    ⟨[⟨1, some 0, none⟩, ⟨2, some 0, some 3⟩, ⟨4, some 0, none⟩],
     [(1, ("\x7b\x7d")), (2, ("\x7b\x7d")), (4, ("\x7b\x7d"))]⟩
    [2, 5] 10 20 (by decide) (by decide)).1

/-- Claim C7 counterexample: applying the reconcile action list is not
failure-isolated.  With two stored guilds both needing a DEPART stamp and
the first store statement raising, the whole batch aborts: the second
guild's left timestamp is never written (the full application would have
stamped both), contradicting the claim that remaining actions still
apply. -/
theorem syncdb_failure_aborts_batch :
    (syncdbF (fun k => decide (k = 0))
      ⟨[⟨1, some 0, none⟩, ⟨2, some 0, none⟩],
       [(1, ("\x7b\x7d")), (2, ("\x7b\x7d"))]⟩ [] 5).1
      = [(1, 2), (2, 2)]
    ∧ (syncdbF (fun k => decide (k = 0))
      ⟨[⟨1, some 0, none⟩, ⟨2, some 0, none⟩],
       [(1, ("\x7b\x7d")), (2, ("\x7b\x7d"))]⟩ [] 5).2
      = (⟨[⟨1, some 0, none⟩, ⟨2, some 0, none⟩],
          [(1, ("\x7b\x7d")), (2, ("\x7b\x7d"))]⟩, true)
    ∧ (syncdbApply
      ⟨[⟨1, some 0, none⟩, ⟨2, some 0, none⟩],
       [(1, ("\x7b\x7d")), (2, ("\x7b\x7d"))]⟩ [(1, 2), (2, 2)] 5).guilds
      = [⟨1, some 0, some 5⟩, ⟨2, some 0, some 5⟩] :=
  ⟨by decide, by decide, by decide⟩

/-- Claim C7 (corrected, amended form): a failing action aborts the
batch.  If the store statement of the n-th action raises (and the earlier
ones succeeded), syncdb's application loop stops there: exactly the
actions before the failure are applied and the exception propagates
(skipping the remaining actions and the final commit). -/
theorem syncdbApplyF_aborts (failAt : Nat → Bool) (tnow : Int) :
    ∀ (clist : List (Nat × Nat)) (n k : Nat) (t : GuildTables),
      n < clist.length → (∀ j, j < n → failAt (k + j) = false) →
      failAt (k + n) = true →
      syncdbApplyF failAt tnow k t clist
        = (syncdbApply t (clist.take n) tnow, true) := by
  intro clist
  induction clist with
  | nil =>
    intro n k t hn
    exact absurd hn (Nat.not_lt_zero n)
  | cons a rest ih =>
    intro n k t hn hprev hfail
    cases n with
    | zero =>
      have h0 : failAt k = true := by simpa using hfail
      show (if failAt k then (t, true)
        else syncdbApplyF failAt tnow (k + 1) (syncdbStep tnow t a) rest)
        = (syncdbApply t ((a :: rest).take 0) tnow, true)
      rw [if_pos h0]
      rfl
    | succ m =>
      have h0 : failAt k = false := by
        have := hprev 0 (Nat.succ_pos m)
        simpa using this
      show (if failAt k then (t, true)
        else syncdbApplyF failAt tnow (k + 1) (syncdbStep tnow t a) rest)
        = (syncdbApply t ((a :: rest).take (m + 1)) tnow, true)
      rw [if_neg (by simp [h0])]
      rw [ih m (k + 1) (syncdbStep tnow t a) (Nat.lt_of_succ_lt_succ hn)
        (fun j hj => by
          rw [show k + 1 + j = k + (j + 1) from by omega]
          exact hprev (j + 1) (Nat.succ_lt_succ hj))
        (by
          rw [show k + 1 + m = k + (m + 1) from by omega]
          exact hfail)]
      rfl

/-! ### Reddit feed theorems -/

/-- Claim C9 (code bug): remsubreddit raises instead of returning false
on an absent target.  When the guild has no subscription for the feed id
(whether the id is untracked, as in the first conjunct, or tracked only
by another guild, as in the second), the indexing of the empty
comprehension raises IndexError, which the except clause catching only
ValueError does not intercept; the documented False return is dead
code. -/
theorem remsubreddit_raises_on_absent_target :
    remsubreddit ⟨[], [], [], (""), 0, 0, false⟩ ("foo") 1
      = .error .pyIndexError
    ∧ remsubreddit ⟨[], [], [(("s"), [(2, 7, 0)])], (""), 0, 0, false⟩ ("s") 1
      = .error .pyIndexError :=
  ⟨rfl, rfl⟩

theorem scanLoop_cold (lfupd lts : Nat) (items : List Subm) :
    scanLoop ("") lfupd lts items = [] := by
  cases items with
  | nil => rfl
  | cons a rest => simp [scanLoop]

theorem scanLoop_bounds (lid : String) (lfupd lts : Nat) :
    ∀ (items : List Subm), ∀ i ∈ scanLoop lid lfupd lts items,
      lfupd ≤ i.created ∧ lts < i.created := by
  intro items
  induction items with
  | nil => intro i hi; cases hi
  | cons a rest ih =>
    intro i hi
    by_cases hbr : a.sid = lid ∨ lid = ("") ∨ a.created < lfupd
        ∨ a.created ≤ lts
    · rw [scanLoop, if_pos hbr] at hi
      cases hi
    · rw [scanLoop, if_neg hbr] at hi
      push_neg at hbr
      rcases List.mem_cons.mp hi with h | h
      · rw [h]
        exact ⟨hbr.2.2.1, hbr.2.2.2⟩
      · exact ih i h

theorem scanLoop_eq_filter (lid : String) (lfupd lts : Nat)
    (hlidne : lid ≠ ("")) :
    ∀ (items : List Subm),
      items.Pairwise (fun a b => b.created < a.created) →
      (∀ i ∈ items, i.sid = lid → i.created ≤ lts) →
      scanLoop lid lfupd lts items
        = items.filter (fun i => decide (lfupd ≤ i.created ∧ lts < i.created)) := by
  intro items
  induction items with
  | nil => intro _ _; rfl
  | cons a rest ih =>
    intro hp hl
    rcases List.pairwise_cons.mp hp with ⟨ha, hrest⟩
    by_cases hbr : a.sid = lid ∨ lid = ("") ∨ a.created < lfupd
        ∨ a.created ≤ lts
    · rw [scanLoop, if_pos hbr]
      have hkey : a.created ≤ lts ∨ a.created < lfupd := by
        rcases hbr with h | h | h | h
        · exact Or.inl (hl a (List.mem_cons_self a rest) h)
        · exact absurd h hlidne
        · exact Or.inr h
        · exact Or.inl h
      symm
      rw [List.filter_eq_nil_iff]
      intro i hi
      rw [decide_eq_true_eq]
      rintro ⟨hif, hit⟩
      rcases List.mem_cons.mp hi with h | h
      · rcases hkey with hk | hk
        · rw [h] at hit
          exact absurd hk (Nat.not_le_of_lt hit)
        · rw [h] at hif
          exact absurd hif (Nat.not_le_of_lt hk)
      · have hlt : i.created < a.created := ha i h
        rcases hkey with hk | hk
        · exact absurd (Nat.lt_of_lt_of_le hlt hk) (Nat.lt_asymm hit)
        · exact absurd hif (Nat.not_le_of_lt (Nat.lt_trans hlt hk))
    · rw [scanLoop, if_neg hbr]
      push_neg at hbr
      rw [ih hrest (fun i hi hs => hl i (List.mem_cons_of_mem a hi) hs)]
      have hpa : (fun i : Subm =>
          decide (lfupd ≤ i.created ∧ lts < i.created)) a = true := by
        rw [decide_eq_true_eq]
        exact ⟨hbr.2.2.1, hbr.2.2.2⟩
      rw [List.filter_cons, if_pos hpa]

/-- Claim C5 counterexample: the first poll after an aggregate rebuild
does fan out items when they are dated at or after the rebuild.  State:
watermark id a at time 10, rebuild at time 20 via buildfeed, then a poll
listing one submission b created at 25 — it is delivered to the
subscriber immediately, while the claim says the first cycle after a
rebuild fans out nothing. -/
theorem pollNewItems_after_rebuild_fans_out :
    (pollNewItems
      (buildfeed ⟨[], [("s")], [(("s"), [(1, 2, 0)])], ("a"), 10, 5, true⟩
        true 20)
      [⟨("b"), 25, ("s")⟩]).1
      = [(⟨("b"), 25, ("s")⟩, [(1, 2, 0)])] := rfl

/-- Claim C5 (corrected, amended form): the anti-backlog rule.  A poll
on a cold start (empty watermark id) fans out nothing and only records
the newest listed id and timestamp; every fanned-out submission is dated
at or after the last rebuild and strictly newer than the watermark
(items dated before the rebuild are never fanned out, even right after
the rebuild — but items at or after the rebuild fan out immediately,
including on the first poll after a rebuild); on a newest-first listing
these conditions are exact; and the watermark advances to the maximum of
the newest listed timestamp and its previous value. -/
theorem pollNewItems_watermark (st : RState) (items : List Subm)
    (hsorted : items.Pairwise (fun a b => b.created < a.created))
    (hlid : ∀ i ∈ items, i.sid = st.lid → i.created ≤ st.lts) :
    (st.lid = ("") → (pollNewItems st items).1 = [])
    ∧ (∀ p ∈ (pollNewItems st items).1,
        st.lfupd ≤ p.1.created ∧ st.lts < p.1.created)
    ∧ (st.lid ≠ ("") →
        scanLoop st.lid st.lfupd st.lts items
          = items.filter (fun i =>
              decide (st.lfupd ≤ i.created ∧ st.lts < i.created)))
    ∧ (pollNewItems st items).2.lts
        = max (((items.head?).map (fun i => i.created)).getD 0) st.lts
    ∧ (pollNewItems st items).2.lid
        = ((items.head?).map (fun i => i.sid)).getD ("") := by
  refine ⟨?_, ?_, ?_, rfl, rfl⟩
  · intro h
    show (scanLoop st.lid st.lfupd st.lts items).map _ = []
    rw [h, scanLoop_cold]
    rfl
  · intro p hp
    rcases List.mem_map.mp hp with ⟨i, hi, hip⟩
    have := scanLoop_bounds st.lid st.lfupd st.lts items i hi
    rw [← hip]
    exact this
  · intro hne
    exact scanLoop_eq_filter st.lid st.lfupd st.lts hne items hsorted hlid

/-- Witness for the amended C5: the concrete post-rebuild state of the
counterexample satisfies the exact-filter characterisation. -/
theorem pollNewItems_watermark_witness :
    scanLoop ("a") 5 10 [⟨("b"), 25, ("s")⟩]
      = [(⟨("b"), 25, ("s")⟩ : Subm)].filter (fun i =>
          decide (5 ≤ i.created ∧ 10 < i.created)) := by
  have h := pollNewItems_watermark
    ⟨[], [("s")], [(("s"), [(1, 2, 0)])], ("a"), 10, 5, true⟩
    [⟨("b"), 25, ("s")⟩] (by decide) (by decide)
  exact h.2.2.1 (by decide)

/-- Witness for the amended C7: the two-DEPART scenario with a failure at
the first action applies none of the actions and reports the abort. -/
theorem syncdbApplyF_aborts_witness :
    syncdbApplyF (fun k => decide (k = 0)) 5 0
      ⟨[⟨1, some 0, none⟩, ⟨2, some 0, none⟩],
       [(1, ("\x7b\x7d")), (2, ("\x7b\x7d"))]⟩ [(1, 2), (2, 2)]
      = (syncdbApply
          ⟨[⟨1, some 0, none⟩, ⟨2, some 0, none⟩],
           [(1, ("\x7b\x7d")), (2, ("\x7b\x7d"))]⟩
          ([(1, 2), (2, 2)].take 0) 5, true) :=
  syncdbApplyF_aborts (fun k => decide (k = 0)) 5 [(1, 2), (2, 2)] 0 0
    ⟨[⟨1, some 0, none⟩, ⟨2, some 0, none⟩],
     [(1, ("\x7b\x7d")), (2, ("\x7b\x7d"))]⟩
    (by decide) (fun j hj => absurd hj (Nat.not_lt_zero j)) (by decide)

/-! ### Lemmas about the subscriber dict and the feed set -/

theorem dict_upd_key (k : String) (v : List (Nat × Nat × Nat))
    (p : String × List (Nat × Nat × Nat)) :
    ((if p.1 = k then (k, v) else p).1) = p.1 := by
  by_cases h : p.1 = k <;> simp [h]

theorem dictGet_dictSet_self (d : List (String × List (Nat × Nat × Nat)))
    (k : String) (v : List (Nat × Nat × Nat)) :
    dictGet (dictSet d k v) k = some v := by
  unfold dictSet
  cases hs : d.find? (fun p => decide (p.1 = k)) with
  | none =>
    simp only [Option.isSome_none, Bool.false_eq_true, if_false]
    unfold dictGet
    rw [List.find?_append, hs]
    simp [List.find?]
  | some p0 =>
    simp only [Option.isSome_some, if_true]
    unfold dictGet
    have hp : ((fun p : String × List (Nat × Nat × Nat) => decide (p.1 = k)) ∘
        (fun p => if p.1 = k then (k, v) else p))
        = (fun p : String × List (Nat × Nat × Nat) => decide (p.1 = k)) := by
      funext p
      simp [Function.comp, dict_upd_key]
    rw [List.find?_map, hp, hs]
    have hk : p0.1 = k := by
      have := List.find?_some hs
      simpa using this
    simp [hk]

theorem dictGet_dictSet_ne (d : List (String × List (Nat × Nat × Nat)))
    (k : String) (v : List (Nat × Nat × Nat)) (k2 : String) (h : k2 ≠ k) :
    dictGet (dictSet d k v) k2 = dictGet d k2 := by
  unfold dictSet
  cases hs : d.find? (fun p => decide (p.1 = k)) with
  | none =>
    simp only [Option.isSome_none, Bool.false_eq_true, if_false]
    unfold dictGet
    rw [List.find?_append]
    have h2 : [(k, v)].find? (fun p => decide (p.1 = k2)) = none := by
      simp [List.find?, Ne.symm h]
    rw [h2]
    simp
  | some p0 =>
    simp only [Option.isSome_some, if_true]
    unfold dictGet
    have hp : ((fun p : String × List (Nat × Nat × Nat) => decide (p.1 = k2)) ∘
        (fun p => if p.1 = k then (k, v) else p))
        = (fun p : String × List (Nat × Nat × Nat) => decide (p.1 = k2)) := by
      funext p
      simp [Function.comp, dict_upd_key]
    rw [List.find?_map, hp]
    cases hf : d.find? (fun p => decide (p.1 = k2)) with
    | none => rfl
    | some q =>
      have hq : q.1 = k2 := by
        have := List.find?_some hf
        simpa using this
      simp [hq, h]

theorem nsubs_data_congr (st1 st2 : RState) (h : st1.data = st2.data)
    (s : String) : nsubs st1 s = nsubs st2 s := by
  unfold nsubs
  rw [h]

theorem nsubs_addsubreddit_self (st : RState) (subn : String)
    (gid cid prole : Nat) :
    nsubs (addsubreddit st subn gid cid prole) subn = nsubs st subn + 1 := by
  have h : (addsubreddit st subn gid cid prole).data
      = dictSet st.data subn
          (((dictGet st.data subn).getD []) ++ [(gid, cid, prole)]) := rfl
  unfold nsubs
  rw [h, dictGet_dictSet_self]
  simp

theorem nsubs_addsubreddit_ne (st : RState) (subn : String)
    (gid cid prole : Nat) (s : String) (h : s ≠ subn) :
    nsubs (addsubreddit st subn gid cid prole) s = nsubs st s := by
  have h2 : (addsubreddit st subn gid cid prole).data
      = dictSet st.data subn
          (((dictGet st.data subn).getD []) ++ [(gid, cid, prole)]) := rfl
  unfold nsubs
  rw [h2, dictGet_dictSet_ne _ _ _ _ h]

theorem mem_feedAdd (feed : List String) (s s2 : String) :
    s2 ∈ feedAdd feed s ↔ (s2 = s ∨ s2 ∈ feed) := by
  unfold feedAdd
  by_cases h : s ∈ feed
  · rw [if_pos h]
    constructor
    · exact Or.inr
    · rintro (rfl | h2)
      · exact h
      · exact h2
  · rw [if_neg h]
    exact List.mem_cons

theorem nodup_feedAdd (feed : List String) (s : String) (h : feed.Nodup) :
    (feedAdd feed s).Nodup := by
  unfold feedAdd
  by_cases hm : s ∈ feed
  · rw [if_pos hm]
    exact h
  · rw [if_neg hm]
    exact List.nodup_cons.mpr ⟨hm, h⟩

theorem contains_eq_decide_mem {α : Type} [BEq α] [LawfulBEq α]
    (l : List α) (e : α) : l.contains e = decide (e ∈ l) :=
  List.elem_eq_mem e l

theorem updfeed_data (st : RState) (sname : String) (isadd ok : Bool)
    (now : Nat) : (updfeed st sname isadd ok now).data = st.data := by
  unfold updfeed buildfeed
  split_ifs <;> rfl

theorem updfeed_blist (st : RState) (sname : String) (isadd ok : Bool)
    (now : Nat) : (updfeed st sname isadd ok now).blist = st.blist := by
  unfold updfeed buildfeed
  split_ifs <;> rfl

theorem updfeed_feed_add (st : RState) (sname : String) (ok : Bool)
    (now : Nat) (hb : sname ∉ st.blist) :
    (updfeed st sname true ok now).feed = feedAdd st.feed sname := by
  unfold updfeed buildfeed
  have hc : (true && !(st.blist.contains sname)) = true := by
    rw [contains_eq_decide_mem]
    simp [hb]
  rw [if_pos hc]
  cases ok <;> rfl

theorem updfeed_feed_rem_zero (st : RState) (sname : String) (ok : Bool)
    (now : Nat) (hz : nsubs st sname = 0) :
    (updfeed st sname false ok now).feed = st.feed.erase sname := by
  unfold updfeed buildfeed
  have h2 : (!false && decide (nsubs st sname = 0)) = true := by simp [hz]
  rw [if_neg (show ¬((false && !(st.blist.contains sname)) = true) from
    by simp), if_pos h2]
  cases ok <;> rfl

theorem updfeed_feed_rem_pos (st : RState) (sname : String) (ok : Bool)
    (now : Nat) (hz : nsubs st sname ≠ 0) :
    (updfeed st sname false ok now).feed = st.feed := by
  unfold updfeed buildfeed
  rw [if_neg (show ¬((false && !(st.blist.contains sname)) = true) from
    by simp)]
  rw [if_neg (show ¬((!false && decide (nsubs st sname = 0)) = true) from
    by simp [hz])]
  cases ok <;> rfl

theorem remsubreddit_ok_effects (st : RState) (subn : String) (gid : Nat)
    (b : Bool) (st2 : RState)
    (h : remsubreddit st subn gid = .ok (b, st2)) :
    b = true ∧ st2.feed = st.feed ∧ st2.blist = st.blist
    ∧ nsubs st2 subn + 1 = nsubs st subn
    ∧ (∀ s, s ≠ subn → nsubs st2 s = nsubs st s) := by
  unfold remsubreddit at h
  cases hm : ((dictGet st.data subn).getD []).filter
      (fun t => decide (t.1 = gid)) with
  | nil =>
    rw [hm] at h
    cases h
  | cons x tl =>
    rw [hm] at h
    injection h with h2
    rw [Prod.mk.injEq] at h2
    rcases h2 with ⟨hb, hst⟩
    have hxmem : x ∈ (dictGet st.data subn).getD [] := by
      have hx : x ∈ ((dictGet st.data subn).getD []).filter
          (fun t => decide (t.1 = gid)) := by
        rw [hm]
        exact List.mem_cons_self x tl
      exact List.mem_of_mem_filter hx
    refine ⟨hb.symm, ?_, ?_, ?_, ?_⟩
    · rw [← hst]
    · rw [← hst]
    · rw [← hst]
      show ((dictGet (dictSet st.data subn
        (((dictGet st.data subn).getD []).erase x)) subn).getD []).length + 1
        = nsubs st subn
      rw [dictGet_dictSet_self]
      show (((dictGet st.data subn).getD []).erase x).length + 1 = _
      rw [List.length_erase_of_mem hxmem]
      have hpos : 0 < ((dictGet st.data subn).getD []).length :=
        List.length_pos_of_mem hxmem
      unfold nsubs
      omega
    · intro s hs
      rw [← hst]
      show ((dictGet (dictSet st.data subn
        (((dictGet st.data subn).getD []).erase x)) s).getD []).length
        = nsubs st s
      rw [dictGet_dictSet_ne _ _ _ _ hs]
      rfl

/-- Core invariant step for adding a subscriber: a state whose feed
gained the subreddit, whose data gained one subscriber for it and whose
blacklist is unchanged keeps the aggregate-membership invariant. -/
theorem feedInv_fields_add (st2 base : RState) (subn : String)
    (hf : st2.feed = feedAdd base.feed subn)
    (hb2 : st2.blist = base.blist)
    (hself : 0 < nsubs st2 subn)
    (hns : ∀ s, s ≠ subn → nsubs st2 s = nsubs base s)
    (hb : subn ∉ base.blist)
    (hinv : feedInv base) (hnd : base.feed.Nodup) :
    feedInv st2 ∧ st2.feed.Nodup := by
  constructor
  · intro s
    rw [hf, hb2, mem_feedAdd]
    by_cases hs : s = subn
    · subst hs
      constructor
      · intro _
        exact ⟨hself, hb⟩
      · intro _
        exact Or.inl rfl
    · rw [hns s hs]
      constructor
      · rintro (h | h)
        · exact absurd h hs
        · exact (hinv s).mp h
      · intro h
        exact Or.inr ((hinv s).mpr h)
  · rw [hf]
    exact nodup_feedAdd base.feed subn hnd

/-- Core invariant step for removing the last subscriber: the subreddit
is erased from the feed set. -/
theorem feedInv_fields_rem_zero (st2 base : RState) (subn : String)
    (hf : st2.feed = base.feed.erase subn)
    (hb2 : st2.blist = base.blist)
    (hz : nsubs st2 subn = 0)
    (hns : ∀ s, s ≠ subn → nsubs st2 s = nsubs base s)
    (hinv : feedInv base) (hnd : base.feed.Nodup) :
    feedInv st2 ∧ st2.feed.Nodup := by
  constructor
  · intro s
    rw [hf, hb2]
    by_cases hs : s = subn
    · subst hs
      constructor
      · intro hmem
        exact absurd ((List.Nodup.mem_erase_iff hnd).mp hmem).1 (by simp)
      · rintro ⟨hpos, _⟩
        rw [hz] at hpos
        cases hpos
    · rw [hns s hs, List.Nodup.mem_erase_iff hnd]
      constructor
      · rintro ⟨_, hmem⟩
        exact (hinv s).mp hmem
      · intro h
        exact ⟨hs, (hinv s).mpr h⟩
  · rw [hf]
    exact hnd.erase subn

/-- Core invariant step for removing a non-last subscriber: the feed set
is unchanged. -/
theorem feedInv_fields_rem_pos (st2 base : RState) (subn : String)
    (hf : st2.feed = base.feed)
    (hb2 : st2.blist = base.blist)
    (hsucc : nsubs st2 subn + 1 = nsubs base subn)
    (hpos : nsubs st2 subn ≠ 0)
    (hns : ∀ s, s ≠ subn → nsubs st2 s = nsubs base s)
    (hinv : feedInv base) (hnd : base.feed.Nodup) :
    feedInv st2 ∧ st2.feed.Nodup := by
  constructor
  · intro s
    rw [hf, hb2]
    by_cases hs : s = subn
    · subst hs
      constructor
      · intro hmem
        exact ⟨Nat.pos_of_ne_zero hpos, ((hinv s).mp hmem).2⟩
      · rintro ⟨_, hbl⟩
        exact (hinv s).mpr ⟨by omega, hbl⟩
    · rw [hns s hs]
      exact hinv s
  · rw [hf]
    exact hnd

theorem initdata_entries_inv (gid : Nat) :
    ∀ (entries : List RedditEntry) (st : RState),
      feedInv st → st.feed.Nodup → (∀ e ∈ entries, e.id ∉ st.blist) →
      feedInv (entries.foldl (fun st e =>
          addsubreddit { st with feed := feedAdd st.feed e.id }
            e.id gid e.broadcast e.prole) st)
      ∧ (entries.foldl (fun st e =>
          addsubreddit { st with feed := feedAdd st.feed e.id }
            e.id gid e.broadcast e.prole) st).feed.Nodup
      ∧ (entries.foldl (fun st e =>
          addsubreddit { st with feed := feedAdd st.feed e.id }
            e.id gid e.broadcast e.prole) st).blist = st.blist := by
  intro entries
  induction entries with
  | nil => intro st h1 h2 _; exact ⟨h1, h2, rfl⟩
  | cons e rest ih =>
    intro st h1 h2 hb
    have hself : 0 < nsubs (addsubreddit { st with feed := feedAdd st.feed e.id }
        e.id gid e.broadcast e.prole) e.id := by
      rw [nsubs_addsubreddit_self]
      exact Nat.succ_pos _
    have hns : ∀ s, s ≠ e.id →
        nsubs (addsubreddit { st with feed := feedAdd st.feed e.id }
          e.id gid e.broadcast e.prole) s = nsubs st s := by
      intro s hs
      rw [nsubs_addsubreddit_ne _ _ _ _ _ _ hs]
      rfl
    have hstep := feedInv_fields_add
      (addsubreddit { st with feed := feedAdd st.feed e.id }
        e.id gid e.broadcast e.prole)
      st e.id rfl rfl hself hns (hb e (List.mem_cons_self e rest)) h1 h2
    have hrest := ih
      (addsubreddit { st with feed := feedAdd st.feed e.id }
        e.id gid e.broadcast e.prole)
      hstep.1 hstep.2
      (by
        intro e2 he2
        exact hb e2 (List.mem_cons_of_mem e he2))
    exact ⟨hrest.1, hrest.2.1, hrest.2.2⟩

theorem initdata_inv :
    ∀ (cfgs : List (Nat × Option (List RedditEntry))) (st : RState),
      feedInv st → st.feed.Nodup →
      (∀ c ∈ cfgs, ∀ entries, c.2 = some entries →
        ∀ e ∈ entries, e.id ∉ st.blist) →
      feedInv (initdata st cfgs) ∧ (initdata st cfgs).feed.Nodup
      ∧ (initdata st cfgs).blist = st.blist := by
  intro cfgs
  induction cfgs with
  | nil => intro st h1 h2 _; exact ⟨h1, h2, rfl⟩
  | cons c rest ih =>
    intro st h1 h2 hb
    unfold initdata
    cases hc : c.2 with
    | none =>
      exact ih st h1 h2 (fun c2 hc2 => hb c2 (List.mem_cons_of_mem c hc2))
    | some entries =>
      have hent := initdata_entries_inv c.1 entries st h1 h2
        (fun e he => hb c (List.mem_cons_self c rest) entries hc e he)
      have hres := ih _ hent.1 hent.2.1
        (by
          intro c2 hc2 entries2 hc22 e he
          rw [hent.2.2]
          exact hb c2 (List.mem_cons_of_mem c hc2) entries2 hc22 e he)
      refine ⟨hres.1, hres.2.1, ?_⟩
      rw [hres.2.2, hent.2.2]

/-- Claim C6 counterexample: initdata adds stored subreddits to the
aggregate without consulting the blocklist.  With the blocklist holding
the name x and a stored guild config subscribing to x, the state after
startup initialisation has x in the active aggregate even though it is
blocklisted, violating the claimed membership invariant. -/
theorem initdata_ignores_blacklist :
    ¬ feedInv (initdata ⟨[("x")], [], [], (""), 0, 0, false⟩
      [(1, some [⟨("x"), 5, 0⟩])]) := by
  intro h
  have hx := (h ("x")).mp (by decide)
  exact hx.2 (by decide)

/-- Claim C6 (corrected, amended form): the aggregate-membership
invariant (a feed id is in the aggregate iff it has a subscriber and is
not blocklisted) is preserved by every subscribe and unsubscribe
command, removing the last subscriber removes the id from the aggregate,
and polling delivers an item of an unsubscribed feed id to nobody; the
startup initialisation preserves the invariant only when no stored entry
names a blocklisted id (it performs no blocklist check of its own). -/
theorem feed_aggregate_invariant (ms ms' : MState) (st : RState)
    (cfgs : List (Nat × Option (List RedditEntry)))
    (gid : Nat) (subn : String) (cid roleid : Nat) (ok : Bool) (now : Nat)
    (items : List Subm) :
    (feedInv ms.man → ms.man.feed.Nodup →
      reddit_cmd_add ms gid subn cid roleid ok now = .ok ms' →
      feedInv ms'.man ∧ ms'.man.feed.Nodup)
    ∧ (feedInv ms.man → ms.man.feed.Nodup →
      reddit_cmd_rem ms gid subn ok now = .ok ms' →
      feedInv ms'.man ∧ ms'.man.feed.Nodup)
    ∧ (ms.man.feed.Nodup →
      reddit_cmd_rem ms gid subn ok now = .ok ms' →
      nsubs ms'.man subn = 0 → subn ∉ ms'.man.feed)
    ∧ (∀ p ∈ (pollNewItems st items).1, nsubs st p.1.sub = 0 → p.2 = [])
    ∧ (feedInv st → st.feed.Nodup →
      (∀ c ∈ cfgs, ∀ entries, c.2 = some entries →
        ∀ e ∈ entries, e.id ∉ st.blist) →
      feedInv (initdata st cfgs) ∧ (initdata st cfgs).feed.Nodup) := by
  refine ⟨?_, ?_, ?_, ?_, ?_⟩
  · intro hinv hnd hok
    unfold reddit_cmd_add at hok
    cases hq : querysubstatus ms.man gid subn with
    | available =>
      rw [hq] at hok
      by_cases hcap : 8 ≤ ((gcfgGet ms.gcfgs gid).getD []).length
      · rw [if_pos hcap] at hok
        cases hok
      · rw [if_neg hcap] at hok
        injection hok with hok
        have hbl : subn ∉ ms.man.blist := by
          unfold querysubstatus at hq
          by_cases h1 : isguildsubbed ms.man gid subn
          · rw [if_pos h1] at hq
            cases hq
          · rw [if_neg h1] at hq
            by_cases h2 : subn ∈ ms.man.blist
            · rw [if_pos h2] at hq
              cases hq
            · exact h2
        have hfadd : (updfeed (addsubreddit ms.man subn gid cid roleid)
            subn true ok now).feed = feedAdd ms.man.feed subn := by
          rw [updfeed_feed_add (addsubreddit ms.man subn gid cid roleid)
            subn ok now hbl]
          rfl
        have hblist : (updfeed (addsubreddit ms.man subn gid cid roleid)
            subn true ok now).blist = ms.man.blist := by
          rw [updfeed_blist]
          rfl
        have hself : 0 < nsubs (updfeed (addsubreddit ms.man subn gid cid
            roleid) subn true ok now) subn := by
          rw [nsubs_data_congr _ (addsubreddit ms.man subn gid cid roleid)
            (updfeed_data _ _ _ _ _) subn, nsubs_addsubreddit_self]
          exact Nat.succ_pos _
        have hns : ∀ s, s ≠ subn →
            nsubs (updfeed (addsubreddit ms.man subn gid cid roleid)
              subn true ok now) s = nsubs ms.man s := by
          intro s hs
          rw [nsubs_data_congr _ (addsubreddit ms.man subn gid cid roleid)
            (updfeed_data _ _ _ _ _) s, nsubs_addsubreddit_ne _ _ _ _ _ _ hs]
        have key := feedInv_fields_add
          (updfeed (addsubreddit ms.man subn gid cid roleid) subn true ok now)
          ms.man subn hfadd hblist hself hns hbl hinv hnd
        rw [← hok]
        exact key
    | nonexistent => rw [hq] at hok; cases hok
    | blacklisted => rw [hq] at hok; cases hok
    | alrinfeed => rw [hq] at hok; cases hok
  · intro hinv hnd hok
    unfold reddit_cmd_rem at hok
    cases hr : remsubreddit ms.man subn gid with
    | error e =>
      rw [hr] at hok
      cases hok
    | ok pr =>
      rcases pr with ⟨b, man1⟩
      rw [hr] at hok
      cases b with
      | false => cases hok
      | true =>
        injection hok with hok
        have eff := remsubreddit_ok_effects ms.man subn gid true man1 hr
        by_cases hz : nsubs man1 subn = 0
        · have key := feedInv_fields_rem_zero
            (updfeed man1 subn false ok now) ms.man subn
            (by rw [updfeed_feed_rem_zero man1 subn ok now hz, eff.2.1])
            (by rw [updfeed_blist, eff.2.2.1])
            (by
              rw [nsubs_data_congr _ man1 (updfeed_data _ _ _ _ _) subn]
              exact hz)
            (by
              intro s hs
              rw [nsubs_data_congr _ man1 (updfeed_data _ _ _ _ _) s]
              exact eff.2.2.2.2 s hs)
            hinv hnd
          rw [← hok]
          exact key
        · have key := feedInv_fields_rem_pos
            (updfeed man1 subn false ok now) ms.man subn
            (by rw [updfeed_feed_rem_pos man1 subn ok now hz, eff.2.1])
            (by rw [updfeed_blist, eff.2.2.1])
            (by
              rw [nsubs_data_congr _ man1 (updfeed_data _ _ _ _ _) subn]
              exact eff.2.2.2.1)
            (by
              rw [nsubs_data_congr _ man1 (updfeed_data _ _ _ _ _) subn]
              exact hz)
            (by
              intro s hs
              rw [nsubs_data_congr _ man1 (updfeed_data _ _ _ _ _) s]
              exact eff.2.2.2.2 s hs)
            hinv hnd
          rw [← hok]
          exact key
  · intro hnd hok hz
    unfold reddit_cmd_rem at hok
    cases hr : remsubreddit ms.man subn gid with
    | error e =>
      rw [hr] at hok
      cases hok
    | ok pr =>
      rcases pr with ⟨b, man1⟩
      rw [hr] at hok
      cases b with
      | false => cases hok
      | true =>
        injection hok with hok
        have eff := remsubreddit_ok_effects ms.man subn gid true man1 hr
        rw [← hok] at hz
        rw [← hok]
        have hz2 : nsubs man1 subn = 0 := by
          rw [← nsubs_data_congr (updfeed man1 subn false ok now) man1
            (updfeed_data _ _ _ _ _) subn]
          exact hz
        show subn ∉ (updfeed man1 subn false ok now).feed
        rw [updfeed_feed_rem_zero man1 subn ok now hz2, eff.2.1]
        intro hmem
        exact absurd ((List.Nodup.mem_erase_iff hnd).mp hmem).1 (by simp)
  · intro p hp hz
    rcases List.mem_map.mp hp with ⟨i, hi, hip⟩
    have hz2 : nsubs st i.sub = 0 := by
      rw [← hip] at hz
      exact hz
    rw [← hip]
    show (dictGet st.data i.sub).getD [] = []
    exact List.length_eq_zero.mp hz2
  · intro hinv hnd hb
    have h := initdata_inv cfgs st hinv hnd hb
    exact ⟨h.1, h.2.1⟩

/-- Witness for the amended C6: subscribing guild 1 to a fresh subreddit
from the empty state yields a state that satisfies the membership
invariant. -/
theorem feed_aggregate_invariant_witness :
    feedInv ⟨[], [("s")], [(("s"), [(1, 2, 0)])], (""), 0, 7, true⟩
    ∧ ([("s")] : List String).Nodup := by
  have hinv0 : feedInv ⟨[], [], [], (""), 0, 0, false⟩ := by
    intro s
    simp [nsubs, dictGet, List.find?]
  have h := (feed_aggregate_invariant
    ⟨⟨[], [], [], (""), 0, 0, false⟩, []⟩
    ⟨⟨[], [("s")], [(("s"), [(1, 2, 0)])], (""), 0, 7, true⟩,
      [(1, some [⟨("s"), 2, 0⟩])]⟩
    ⟨[], [], [], (""), 0, 0, false⟩ [] 1 ("s") 2 0 true 7 []).1
    hinv0 (by decide) rfl
  exact h

end Kiyoko
